import Mathlib

/-!
Shallow embedding of `src/tkeysign.go` (Go package `tkeysign`), a protocol
client driving the RSA signer app on a Tillitis TKey.

The external transport library (`tkeyclient`) is out of scope of the
repository; following the specification it is modelled by a mock device
state: `pending` holds the response frames the device will deliver in
order, `sent` records every frame the client writes, and `timeout` holds
the current read-timeout setting.  Frames are lists of byte values.

Go slice indexing that would panic on malformed frames is modelled by the
total accessors `List.getD` / `List.drop` / `List.take`; all theorems about
frame contents carry explicit frame-length hypotheses, and all concrete
scenarios use frames on which the Go code would not panic, so model and
source agree on every input used.
-/

set_option autoImplicit false
set_option maxRecDepth 2000

namespace Tkeysign

/-- A wire frame: a list of byte values. -/
abbrev Frame := List Nat

/-- Frame length classes of the transport (`tkeyclient.CmdLen`). -/
inductive CmdLen where
  | cmdLen1
  | cmdLen4
  | cmdLen32
  | cmdLen128
deriving DecidableEq

/-- Modelled from the spec: the command-data byte length of each frame
length class of the external transport (1, 4, 32 or 128 bytes; a frame is
one header byte followed by that many command bytes, the first of which is
the command code, leaving `byteLen - 1` usable payload bytes). -/
def CmdLen.byteLen : CmdLen → Nat
  | .cmdLen1 => 1
  | .cmdLen4 => 4
  | .cmdLen32 => 32
  | .cmdLen128 => 128

/-- Modelled from the spec: the 2-bit wire encoding of a frame length
class, used only inside the frame header byte. -/
def CmdLen.lenCode : CmdLen → Nat
  | .cmdLen1 => 0
  | .cmdLen4 => 1
  | .cmdLen32 => 2
  | .cmdLen128 => 3

/-- `appCmd` from the source: opcode, human name and frame length class. -/
structure AppCmd where
  code : Nat
  name : String
  cmdLen : CmdLen
deriving DecidableEq

def cmdGetPubkey : AppCmd := ⟨0x01, "cmdGetPubkey", .cmdLen1⟩
def rspGetPubkey : AppCmd := ⟨0x02, "rspGetPubkey", .cmdLen128⟩
def cmdSetSize : AppCmd := ⟨0x03, "cmdSetSize", .cmdLen32⟩
def rspSetSize : AppCmd := ⟨0x04, "rspSetSize", .cmdLen4⟩
def cmdSignData : AppCmd := ⟨0x05, "cmdSignData", .cmdLen128⟩
def rspSignData : AppCmd := ⟨0x06, "rspSignData", .cmdLen4⟩
def cmdGetSig : AppCmd := ⟨0x07, "cmdGetSig", .cmdLen1⟩
def rspGetSig : AppCmd := ⟨0x08, "rspGetSig", .cmdLen128⟩
def cmdGetNameVersion : AppCmd := ⟨0x09, "cmdGetNameVersion", .cmdLen1⟩
def rspGetNameVersion : AppCmd := ⟨0x0a, "rspGetNameVersion", .cmdLen32⟩
def cmdGetFirmwareHash : AppCmd := ⟨0x0b, "cmdGetFirmwareHash", .cmdLen32⟩
def rspGetFirmwareHash : AppCmd := ⟨0x0c, "rspGetFirmwareHash", .cmdLen128⟩
def cmdLoadKey : AppCmd := ⟨0x0d, "cmdLoadKey", .cmdLen128⟩
def cmdEncryptKey : AppCmd := ⟨0x0e, "cmdEncryptKey", .cmdLen1⟩
def rspEncryptKey : AppCmd := ⟨0x0f, "rspEncryptKey", .cmdLen128⟩
def cmdLoadEncKey : AppCmd := ⟨0x10, "cmdLoadEncKey", .cmdLen128⟩
def cmdIsKeyLoaded : AppCmd := ⟨0x11, "cmdIsKeyLoaded", .cmdLen1⟩
def rspIsKeyLoaded : AppCmd := ⟨0x12, "rspIsKeyLoaded", .cmdLen4⟩
def cmdDecryptKey : AppCmd := ⟨0x13, "cmdDecryptKey", .cmdLen1⟩
def rspDecryptKey : AppCmd := ⟨0x14, "rspDecryptKey", .cmdLen4⟩
def cmdParseKey : AppCmd := ⟨0x15, "cmdParseKey", .cmdLen1⟩
def rspParseKey : AppCmd := ⟨0x16, "rspParseKey", .cmdLen4⟩

/-- `MaxSignSize` from the source (line 55). -/
def MaxSignSize : Nat := 4096

/-- `tkeyclient.StatusOK` of the external transport: the success status byte. -/
def statusOK : Nat := 0

/-- `tkeyclient.DestApp`: the application endpoint number. -/
def destApp : Nat := 3

/-- Error values, one per distinct error site of the source.  Transport
errors wrapped by the Go code with `%w` context are forwarded unchanged. -/
inductive SignerErr where
  | readFrameErr
  | setSizeNOK
  | signDataNOK
  | parseKeyNOK
  | decryptKeyNOK
  | fwHashNOK
  | copiedMismatch
  | overshoot
  | shortRead
  | writeShort
deriving DecidableEq

/-- The mock device / connection state: frames the device will answer with,
frames the client has written, and the current read timeout (0 = blocking). -/
structure TKState where
  pending : List Frame
  sent : List Frame
  timeout : Nat
deriving DecidableEq

/-- Modelled from the spec: the transport's `write(frame) -> Result`;
records the frame on the wire. -/
def write (tx : Frame) (st : TKState) : TKState :=
  { st with sent := st.sent ++ [tx] }

/-- Modelled from the spec: the transport's `set_read_timeout(seconds)`. -/
def setReadTimeout (t : Nat) (st : TKState) : TKState :=
  { st with timeout := t }

/-- Modelled from the spec: the transport's
`read_frame(expected_response_descriptor, endpoint_id) -> Result<frame_bytes>`;
delivers the next mocked device frame, or fails when none is left. -/
def readFrame (st : TKState) : Except SignerErr Frame × TKState :=
  match st.pending with
  | [] => (.error .readFrameErr, st)
  | f :: rest => (.ok f, { st with pending := rest })

/-- Modelled from the spec: the transport's
`build_frame(command_descriptor, endpoint_id) -> frame_buffer`: one header
byte, the command code, then a zeroed command-data area. -/
def newFrameBuf (cmd : AppCmd) (id : Nat) : Frame :=
  (id * 32 + destApp * 8 + cmd.cmdLen.lenCode) :: cmd.code ::
    List.replicate (cmd.cmdLen.byteLen - 1) 0

/-- Go's `copy(dst[off : off+cap], src)`: copies `min cap src.length` bytes
of `src` into `dst` starting at `off`; returns the new buffer and the count. -/
def sliceCopy (dst : List Nat) (off cap : Nat) (src : List Nat) : List Nat × Nat :=
  let n := min cap src.length
  (dst.take off ++ src.take n ++ dst.drop (off + n), n)

/-- In-range byte assignments `dst[off], dst[off+1], ... = src` as done for
the little-endian size fields. -/
def writeBytesAt (dst : List Nat) (off : Nat) (src : List Nat) : List Nat :=
  dst.take off ++ src ++ dst.drop (off + src.length)

/-- The set-size request frame: `NewFrameBuf(cmdSetSize, 2)` with
`tx[2..5]` holding `size` in little-endian byte order (source lines 381-390). -/
def setSizeTx (size : Nat) : Frame :=
  writeBytesAt (newFrameBuf cmdSetSize 2) 2
    [size % 256, size / 256 % 256, size / 65536 % 256, size / 16777216 % 256]

/-- `setSize` (source lines 379-407): declare the payload size, read one
response frame and check its status byte. -/
def setSize (size : Nat) (st : TKState) : Except SignerErr Unit × TKState :=
  let st := write (setSizeTx size) st
  match readFrame st with
  | (.error e, st) => (.error e, st)
  | (.ok rx, st) =>
    if rx.getD 2 0 ≠ statusOK then (.error .setSizeNOK, st)
    else (.ok (), st)

/-- The chunk frame built by `signLoad` / `transferPiece` / `keyEncLoad`:
`payload := make(cmdLen.Bytelen()-1)`, `copied := copy(payload, content)`,
zero padding of the tail, then `copy(tx[2:], payload)`. -/
def pieceTx (cmd : AppCmd) (content : List Nat) : Frame :=
  let cap := cmd.cmdLen.byteLen - 1
  let copied := min cap content.length
  let payload := content.take copied ++ List.replicate (cap - copied) 0
  (sliceCopy (newFrameBuf cmd 2) 2 cap payload).1

/-- Common body of `signLoad` (lines 411-445), `transferPiece` (447-481)
and `keyEncLoad` (483-517): the three differ only in the request opcode;
each sends one zero-padded chunk frame, reads one response frame, checks
its status byte, and returns the number of content bytes actually copied. -/
def pieceLoad (cmd : AppCmd) (content : List Nat) (st : TKState) :
    Except SignerErr Nat × TKState :=
  let copied := min (cmd.cmdLen.byteLen - 1) content.length
  let st := write (pieceTx cmd content) st
  match readFrame st with
  | (.error e, st) => (.error e, st)
  | (.ok rx, st) =>
    if rx.getD 2 0 ≠ statusOK then (.error .signDataNOK, st)
    else (.ok copied, st)

/-- `signLoad` (source lines 411-445). -/
def signLoad (content : List Nat) (st : TKState) : Except SignerErr Nat × TKState :=
  pieceLoad cmdSignData content st

/-- `transferPiece` (source lines 447-481). -/
def transferPiece (content : List Nat) (st : TKState) : Except SignerErr Nat × TKState :=
  pieceLoad cmdLoadKey content st

/-- `keyEncLoad` (source lines 483-517). -/
def keyEncLoad (content : List Nat) (st : TKState) : Except SignerErr Nat × TKState :=
  pieceLoad cmdLoadEncKey content st

/-- The outbound chunking loop shared by `Sign`, `transferKey` and
`loadEncKey`:
`for nsent := 0; offset < len(data); offset += nsent { nsent, err = piece(data[offset:]) }`.
Returns the final cursor value.  The proposition `hc` records that the
command's payload capacity is positive, which is what makes the Go loop
terminate (every successful piece advances the cursor by at least one). -/
def chunkLoop (cmd : AppCmd) (hc : 0 < cmd.cmdLen.byteLen - 1)
    (data : List Nat) (offset : Nat) (st : TKState) :
    Except SignerErr Nat × TKState :=
  if hlt : offset < data.length then
    match hp : pieceLoad cmd (data.drop offset) st with
    | (.error e, st) => (.error e, st)
    | (.ok nsent, st) => chunkLoop cmd hc data (offset + nsent) st
  else
    (.ok offset, st)
termination_by data.length - offset
decreasing_by
  simp only [pieceLoad] at hp
  split at hp
  · simp at hp
  · split at hp
    · simp at hp
    · rw [Prod.mk.injEq] at hp
      have hn : nsent = min (cmd.cmdLen.byteLen - 1) (data.drop offset).length :=
        (Except.ok.inj hp.1).symm
      rw [hn, List.length_drop]
      omega

/-- The sequence of chunk frames the loop sends for a given buffer, for a
128-byte-class command (payload capacity 127). -/
def chunkTxs (cmd : AppCmd) (data : List Nat) : List Frame :=
  if data = [] then [] else pieceTx cmd data :: chunkTxs cmd (data.drop 127)
termination_by data.length
decreasing_by
  rename_i h
  have : data.length ≠ 0 := fun hn => h (List.eq_nil_of_length_eq_zero hn)
  rw [List.length_drop]
  omega

/-- `getSig` (source lines 559-601): one request, then three response
frames reassembled into a 256-byte signature at offsets 0, 127 and 254.
The status byte of the first response frame is *not* checked (the check is
commented out in the source, lines 576-578), and none of the `copy` byte
counts are checked. -/
def getSig (st : TKState) : Except SignerErr (List Nat) × TKState :=
  let st := write (newFrameBuf cmdGetSig 2) st
  match readFrame st with
  | (.error e, st) => (.error e, st)
  | (.ok rx, st) =>
    let signatureRaw := List.replicate 256 0
    let signatureRaw := (sliceCopy signatureRaw 0 127 (rx.drop 2)).1
    match readFrame st with
    | (.error e, st) => (.error e, st)
    | (.ok rx, st) =>
      let signatureRaw := (sliceCopy signatureRaw 127 127 (rx.drop 2)).1
      match readFrame st with
      | (.error e, st) => (.error e, st)
      | (.ok rx, st) =>
        (.ok (sliceCopy signatureRaw 254 2 ((rx.drop 2).take 2)).1, st)

/-- `GetPubkey` (source lines 142-182): same three-frame reassembly as
`getSig`; no status byte and no copied-byte count is checked. -/
def GetPubkey (st : TKState) : Except SignerErr (List Nat) × TKState :=
  let st := write (newFrameBuf cmdGetPubkey 2) st
  match readFrame st with
  | (.error e, st) => (.error e, st)
  | (.ok rx, st) =>
    let pubkeyRaw := List.replicate 256 0
    let pubkeyRaw := (sliceCopy pubkeyRaw 0 127 (rx.drop 2)).1
    match readFrame st with
    | (.error e, st) => (.error e, st)
    | (.ok rx, st) =>
      let pubkeyRaw := (sliceCopy pubkeyRaw 127 127 (rx.drop 2)).1
      match readFrame st with
      | (.error e, st) => (.error e, st)
      | (.ok rx, st) =>
        (.ok (sliceCopy pubkeyRaw 254 2 ((rx.drop 2).take 2)).1, st)

/-- `GetAppNameVersion` (source lines 108-139): write the request, set a
2-second read timeout, read one frame, restore the timeout to blocking (0)
and return the name/version bytes `rx[2:]`.  On a read failure the
function returns *before* the timeout is restored. -/
def GetAppNameVersion (st : TKState) : Except SignerErr (List Nat) × TKState :=
  let st := write (newFrameBuf cmdGetNameVersion 2) st
  let st := setReadTimeout 2 st
  match readFrame st with
  | (.error e, st) => (.error e, st)
  | (.ok rx, st) =>
    let st := setReadTimeout 0 st
    (.ok (rx.drop 2), st)

/-- `Sign` (source lines 185-208): declare the size, chunk the message,
check the cursor did not overshoot, then fetch the signature.  Note that
the source performs no comparison of `len(data)` with `MaxSignSize`. -/
def Sign (data : List Nat) (st : TKState) : Except SignerErr (List Nat) × TKState :=
  match setSize data.length st with
  | (.error e, st) => (.error e, st)
  | (.ok _, st) =>
    match chunkLoop cmdSignData (by decide) data 0 st with
    | (.error e, st) => (.error e, st)
    | (.ok offset, st) =>
      if offset > data.length then (.error .overshoot, st)
      else
        match getSig st with
        | (.error e, st) => (.error e, st)
        | (.ok signature, st) => (.ok signature, st)

/-- `transferKey` (source lines 285-302): set-size, chunk with
`transferPiece`, overshoot check. -/
def transferKey (data : List Nat) (st : TKState) : Except SignerErr Unit × TKState :=
  match setSize data.length st with
  | (.error e, st) => (.error e, st)
  | (.ok _, st) =>
    match chunkLoop cmdLoadKey (by decide) data 0 st with
    | (.error e, st) => (.error e, st)
    | (.ok offset, st) =>
      if offset > data.length then (.error .overshoot, st)
      else (.ok (), st)

/-- `loadEncKey` (source lines 304-321): set-size, chunk with
`keyEncLoad`, overshoot check. -/
def loadEncKey (data : List Nat) (st : TKState) : Except SignerErr Unit × TKState :=
  match setSize data.length st with
  | (.error e, st) => (.error e, st)
  | (.ok _, st) =>
    match chunkLoop cmdLoadEncKey (by decide) data 0 st with
    | (.error e, st) => (.error e, st)
    | (.ok offset, st) =>
      if offset > data.length then (.error .overshoot, st)
      else (.ok (), st)

/-- The 13-iteration full-frame reassembly loop of `keyEncrypt` (source
lines 534-543): each response frame must yield exactly 127 bytes copied
into `rsp[i*127 : i*127+127]`. -/
def keyEncryptLoop (i count : Nat) (rsp : List Nat) (st : TKState) :
    Except SignerErr (List Nat) × TKState :=
  match count with
  | 0 => (.ok rsp, st)
  | c + 1 =>
    match readFrame st with
    | (.error e, st) => (.error e, st)
    | (.ok rx, st) =>
      let r := sliceCopy rsp (i * 127) 127 (rx.drop 2)
      if r.2 ≠ 127 then (.error .copiedMismatch, st)
      else keyEncryptLoop (i + 1) c r.1 st

/-- `keyEncrypt` (source lines 519-555): one request, 13 full response
frames of 127 bytes each, then a 25-byte tail copied to offset 1651; a
copied-byte count differing from the expected amount is an error. The
tail copy models the source's `rx[2:2+25]` slice by the total
`(rx.drop 2).take 25`: on tail frames shorter than 27 bytes the source
panics at the slice expression while this model reaches the copied-count
check, so theorems about the tail restrict it to at least 27 bytes, where
the copy always yields exactly 25 bytes and the `copied != 25` check is
dead code. -/
def keyEncrypt (st : TKState) : Except SignerErr (List Nat) × TKState :=
  let st := write (newFrameBuf cmdEncryptKey 2) st
  match keyEncryptLoop 0 13 (List.replicate 1676 0) st with
  | (.error e, st) => (.error e, st)
  | (.ok rsp, st) =>
    match readFrame st with
    | (.error e, st) => (.error e, st)
    | (.ok rx, st) =>
      let r := sliceCopy rsp 1651 25 ((rx.drop 2).take 25)
      if r.2 ≠ 25 then (.error .copiedMismatch, st)
      else (.ok r.1, st)

/-- The blob `keyEncrypt` reassembles from 14 well-formed response frames:
13 full 127-byte slices at offsets `i*127` followed by the 25-byte tail at
offset 1651. -/
def encBlob (fs : List Frame) : List Nat :=
  ((fs.take 13).map fun f => (f.drop 2).take 127).flatten ++
    ((fs.getD 13 []).drop 2).take 25

/-- `parseKey` (source lines 336-355): single exchange, status checked. -/
def parseKey (st : TKState) : Except SignerErr Unit × TKState :=
  let st := write (newFrameBuf cmdParseKey 2) st
  match readFrame st with
  | (.error e, st) => (.error e, st)
  | (.ok rx, st) =>
    if rx.getD 2 0 ≠ statusOK then (.error .parseKeyNOK, st)
    else (.ok (), st)

/-- `decryptKey` (source lines 357-376): single exchange, status checked. -/
def decryptKey (st : TKState) : Except SignerErr Unit × TKState :=
  let st := write (newFrameBuf cmdDecryptKey 2) st
  match readFrame st with
  | (.error e, st) => (.error e, st)
  | (.ok rx, st) =>
    if rx.getD 2 0 ≠ statusOK then (.error .decryptKeyNOK, st)
    else (.ok (), st)

/-- `encryptKey` (source lines 323-334): transfer the plain key, then
fetch the encrypted blob. -/
def encryptKey (data : List Nat) (st : TKState) : Except SignerErr (List Nat) × TKState :=
  match transferKey data st with
  | (.error e, st) => (.error e, st)
  | (.ok _, st) => keyEncrypt st

/-- `LoadKey` (source lines 230-283).  File access and PEM detection are
external collaborators (`os`, `encoding/pem`), so their outcomes are
parameters: `n1` is the byte count the read reported, `key` the 1676-byte
buffer it filled, `isPem` the PEM-detection result, and `wn` the byte
count the persisting write reported.  Note the source accepts `n1 = 1675`
(its guard is `n1 < 1675`). -/
def LoadKey (n1 : Nat) (key : List Nat) (isPem : Bool) (wn : Nat) (st : TKState) :
    Except SignerErr Unit × TKState :=
  if n1 < 1675 then (.error .shortRead, st)
  else if isPem then
    match encryptKey key st with
    | (.error e, st) => (.error e, st)
    | (.ok _, st) =>
      if wn ≠ key.length then (.error .writeShort, st)
      else parseKey st
  else
    match loadEncKey key st with
    | (.error e, st) => (.error e, st)
    | (.ok _, st) =>
      match decryptKey st with
      | (.error e, st) => (.error e, st)
      | (.ok _, st) => parseKey st

/-- The firmware-hash request frame: `NewFrameBuf(cmdGetFirmwareHash, 2)`
with `tx[2..5]` holding the byte count in little-endian order (source
lines 608-617). -/
def fwTx (len : Nat) : Frame :=
  writeBytesAt (newFrameBuf cmdGetFirmwareHash 2) 2
    [len % 256, len / 256 % 256, len / 65536 % 256, len / 16777216 % 256]

/-- `GetFWDigest` (source lines 606-639): single exchange; on success the
64 digest bytes `rx[3 : 3+64]` are returned. -/
def GetFWDigest (len : Nat) (st : TKState) : Except SignerErr (List Nat) × TKState :=
  let st := write (fwTx len) st
  match readFrame st with
  | (.error e, st) => (.error e, st)
  | (.ok rx, st) =>
    if rx.getD 2 0 ≠ statusOK then (.error .fwHashNOK, st)
    else (.ok ((rx.drop 3).take 64), st)

/-- `GetIsKeyLoaded` (source lines 210-228): single exchange; interprets
`rx[2] == 1` as the boolean answer. -/
def GetIsKeyLoaded (st : TKState) : Except SignerErr Bool × TKState :=
  let st := write (newFrameBuf cmdIsKeyLoaded 2) st
  match readFrame st with
  | (.error e, st) => (.error e, st)
  | (.ok rx, st) => (.ok (rx.getD 2 0 = 1 : Bool), st)

/-- The error component of an operation's outcome, if any. -/
def resErr {α : Type} : Except SignerErr α × TKState → Option SignerErr
  | (.error e, _) => some e
  | (.ok _, _) => none

/-- Whether an outcome is a success. -/
def resIsOk {α : Type} : Except SignerErr α × TKState → Bool
  | (.error _, _) => false
  | (.ok _, _) => true

/-- A well-formed all-zero device response frame of the 128-byte class:
its status byte (index 2) is `statusOK`. -/
def okFrame : Frame := List.replicate 129 0

/-- A response frame whose status byte (index 2) is 1, i.e. not success. -/
def nokFrame : Frame := [0, 0, 1, 0]

/-! ### Helper lemmas about the model primitives -/

theorem sliceCopy_fill (pre suf src : List Nat) (off cap : Nat)
    (hoff : pre.length = off) (hsrc : src.length = cap) :
    sliceCopy (pre ++ suf) off cap src = (pre ++ (src ++ suf.drop cap), cap) := by
  subst hoff; subst hsrc
  simp only [sliceCopy, Nat.min_self, List.take_left, List.take_length,
    List.drop_append, List.append_assoc]

theorem readFrame_err_val (st : TKState) (e : SignerErr) (st2 : TKState)
    (h : readFrame st = (.error e, st2)) : e = .readFrameErr ∧ st2 = st := by
  unfold readFrame at h
  split at h <;> simp_all

theorem readFrame_sent (st : TKState) : (readFrame st).2.sent = st.sent := by
  unfold readFrame
  split <;> simp_all

theorem pieceLoad_ok (cmd : AppCmd) (content : List Nat) (st : TKState)
    (f : Frame) (rest : List Frame)
    (hp : st.pending = f :: rest) (hf : f.getD 2 0 = statusOK) :
    pieceLoad cmd content st =
      (.ok (min (cmd.cmdLen.byteLen - 1) content.length),
       ⟨rest, st.sent ++ [pieceTx cmd content], st.timeout⟩) := by
  simp only [List.getD_eq_getElem?_getD] at hf
  simp [pieceLoad, write, readFrame, hp, hf]

theorem pieceLoad_nok (cmd : AppCmd) (content : List Nat) (st : TKState)
    (f : Frame) (rest : List Frame)
    (hp : st.pending = f :: rest) (hf : f.getD 2 0 ≠ statusOK) :
    pieceLoad cmd content st =
      (.error .signDataNOK,
       ⟨rest, st.sent ++ [pieceTx cmd content], st.timeout⟩) := by
  simp only [List.getD_eq_getElem?_getD] at hf
  simp [pieceLoad, write, readFrame, hp, hf]

theorem pieceLoad_empty (cmd : AppCmd) (content : List Nat) (st : TKState)
    (hp : st.pending = []) :
    pieceLoad cmd content st =
      (.error .readFrameErr,
       ⟨[], st.sent ++ [pieceTx cmd content], st.timeout⟩) := by
  simp [pieceLoad, write, readFrame, hp]

theorem pieceLoad_ok_val (cmd : AppCmd) (content : List Nat) (st : TKState)
    (nsent : Nat) (st2 : TKState)
    (h : pieceLoad cmd content st = (.ok nsent, st2)) :
    nsent = min (cmd.cmdLen.byteLen - 1) content.length := by
  simp only [pieceLoad] at h
  split at h
  · simp at h
  · split at h
    · simp at h
    · rw [Prod.mk.injEq] at h
      exact (Except.ok.inj h.1).symm

theorem pieceLoad_err_val (cmd : AppCmd) (content : List Nat) (st : TKState)
    (e : SignerErr) (st2 : TKState)
    (h : pieceLoad cmd content st = (.error e, st2)) :
    e = .readFrameErr ∨ e = .signDataNOK := by
  simp only [pieceLoad] at h
  split at h
  · rename_i e' st' heq
    rw [Prod.mk.injEq] at h
    exact Or.inl ((Except.error.inj h.1) ▸ (readFrame_err_val _ _ _ heq).1.symm ▸ rfl)
  · split at h
    · rw [Prod.mk.injEq] at h
      exact Or.inr (Except.error.inj h.1).symm
    · simp at h

theorem pieceLoad_sent (cmd : AppCmd) (content : List Nat) (st : TKState) :
    (pieceLoad cmd content st).2.sent = st.sent ++ [pieceTx cmd content] := by
  rcases hsp : st.pending with _ | ⟨f, rest⟩
  · rw [pieceLoad_empty cmd content st hsp]
  · by_cases hf : f.getD 2 0 = statusOK
    · rw [pieceLoad_ok cmd content st f rest hsp hf]
    · rw [pieceLoad_nok cmd content st f rest hsp hf]

theorem setSize_ok (size : Nat) (st : TKState) (f : Frame) (rest : List Frame)
    (hp : st.pending = f :: rest) (hf : f.getD 2 0 = statusOK) :
    setSize size st =
      (.ok (), ⟨rest, st.sent ++ [setSizeTx size], st.timeout⟩) := by
  simp only [List.getD_eq_getElem?_getD] at hf
  simp [setSize, write, readFrame, hp, hf]

theorem setSize_nok (size : Nat) (st : TKState) (f : Frame) (rest : List Frame)
    (hp : st.pending = f :: rest) (hf : f.getD 2 0 ≠ statusOK) :
    setSize size st =
      (.error .setSizeNOK, ⟨rest, st.sent ++ [setSizeTx size], st.timeout⟩) := by
  simp only [List.getD_eq_getElem?_getD] at hf
  simp [setSize, write, readFrame, hp, hf]

theorem setSize_empty (size : Nat) (st : TKState) (hp : st.pending = []) :
    setSize size st =
      (.error .readFrameErr, ⟨[], st.sent ++ [setSizeTx size], st.timeout⟩) := by
  simp [setSize, write, readFrame, hp]

theorem setSize_err_val (size : Nat) (st : TKState) (e : SignerErr) (st2 : TKState)
    (h : setSize size st = (.error e, st2)) :
    e = .readFrameErr ∨ e = .setSizeNOK := by
  simp only [setSize] at h
  split at h
  · rename_i e' st' heq
    rw [Prod.mk.injEq] at h
    exact Or.inl ((Except.error.inj h.1) ▸ (readFrame_err_val _ _ _ heq).1.symm ▸ rfl)
  · split at h
    · rw [Prod.mk.injEq] at h
      exact Or.inr (Except.error.inj h.1).symm
    · simp at h

theorem setSize_sent (size : Nat) (st : TKState) :
    (setSize size st).2.sent = st.sent ++ [setSizeTx size] := by
  rcases hsp : st.pending with _ | ⟨f, rest⟩
  · rw [setSize_empty size st hsp]
  · by_cases hf : f.getD 2 0 = statusOK
    · rw [setSize_ok size st f rest hsp hf]
    · rw [setSize_nok size st f rest hsp hf]

theorem parseKey_ok (st : TKState) (f : Frame) (rest : List Frame)
    (hp : st.pending = f :: rest) (hf : f.getD 2 0 = statusOK) :
    parseKey st =
      (.ok (), ⟨rest, st.sent ++ [newFrameBuf cmdParseKey 2], st.timeout⟩) := by
  simp only [List.getD_eq_getElem?_getD] at hf
  simp [parseKey, write, readFrame, hp, hf]

theorem decryptKey_ok (st : TKState) (f : Frame) (rest : List Frame)
    (hp : st.pending = f :: rest) (hf : f.getD 2 0 = statusOK) :
    decryptKey st =
      (.ok (), ⟨rest, st.sent ++ [newFrameBuf cmdDecryptKey 2], st.timeout⟩) := by
  simp only [List.getD_eq_getElem?_getD] at hf
  simp [decryptKey, write, readFrame, hp, hf]

theorem decryptKey_nok (st : TKState) (f : Frame) (rest : List Frame)
    (hp : st.pending = f :: rest) (hf : f.getD 2 0 ≠ statusOK) :
    decryptKey st =
      (.error .decryptKeyNOK,
       ⟨rest, st.sent ++ [newFrameBuf cmdDecryptKey 2], st.timeout⟩) := by
  simp only [List.getD_eq_getElem?_getD] at hf
  simp [decryptKey, write, readFrame, hp, hf]

theorem chunkTxs_nil (cmd : AppCmd) : chunkTxs cmd [] = [] := by
  rw [chunkTxs]
  simp

theorem chunkTxs_cons (cmd : AppCmd) (data : List Nat) (h : data ≠ []) :
    chunkTxs cmd data = pieceTx cmd data :: chunkTxs cmd (data.drop 127) := by
  rw [chunkTxs]
  simp [h]

theorem chunkTxs_length (cmd : AppCmd) :
    ∀ (n : Nat) (data : List Nat), data.length = n →
      (chunkTxs cmd data).length = (data.length + 126) / 127 := by
  intro n
  induction n using Nat.strong_induction_on with
  | _ n ih =>
    intro data hn
    by_cases h : data = []
    · subst h; simp [chunkTxs_nil]
    · have h0 : data.length ≠ 0 := fun h0 => h (List.eq_nil_of_length_eq_zero h0)
      rw [chunkTxs_cons cmd data h, List.length_cons,
        ih (data.drop 127).length (by rw [List.length_drop]; omega) _ rfl]
      rw [List.length_drop]
      omega

theorem chunkLoop_ok_val (cmd : AppCmd) (hc : 0 < cmd.cmdLen.byteLen - 1) :
    ∀ (n : Nat) (data : List Nat) (offset : Nat) (st : TKState) (o : Nat) (st2 : TKState),
      data.length - offset = n → offset ≤ data.length →
      chunkLoop cmd hc data offset st = (.ok o, st2) → o = data.length := by
  intro n
  induction n using Nat.strong_induction_on with
  | _ n ih =>
    intro data offset st o st2 hn hle h
    rw [chunkLoop] at h
    by_cases hlt : offset < data.length
    · rw [dif_pos hlt] at h
      split at h
      · simp at h
      · rename_i nsent st' heq
        have hv := pieceLoad_ok_val _ _ _ _ _ heq
        rw [List.length_drop] at hv
        exact ih (data.length - (offset + nsent)) (by omega) data (offset + nsent) st' o st2
          rfl (by omega) h
    · rw [dif_neg hlt] at h
      rw [Prod.mk.injEq] at h
      have := Except.ok.inj h.1
      omega

theorem chunkLoop_ok_run (cmd : AppCmd) (hc : 0 < cmd.cmdLen.byteLen - 1)
    (h128 : cmd.cmdLen.byteLen - 1 = 127) :
    ∀ (n : Nat) (data : List Nat) (offset : Nat) (st : TKState),
      data.length - offset = n → offset ≤ data.length →
      (∀ f ∈ st.pending.take ((n + 126) / 127), f.getD 2 0 = statusOK) →
      (n + 126) / 127 ≤ st.pending.length →
      chunkLoop cmd hc data offset st =
        (.ok data.length,
         ⟨st.pending.drop ((n + 126) / 127),
          st.sent ++ chunkTxs cmd (data.drop offset), st.timeout⟩) := by
  intro n
  induction n using Nat.strong_induction_on with
  | _ n ih =>
    intro data offset st hn hle hok hcount
    rw [chunkLoop]
    by_cases hlt : offset < data.length
    · rw [dif_pos hlt]
      rcases hsp : st.pending with _ | ⟨f, rest⟩
      · exfalso
        rw [hsp] at hcount
        simp at hcount
        omega
      · have hk1 : (n + 126) / 127 = ((n + 126) / 127 - 1) + 1 := by omega
        have hf : f.getD 2 0 = statusOK := hok f (by
          rw [hsp, hk1, List.take_succ_cons]
          exact List.mem_cons_self ..)
        rw [hsp] at hcount
        rw [List.length_cons] at hcount
        split
        · rename_i e st' heq
          rw [pieceLoad_ok cmd _ st f rest hsp hf] at heq
          simp at heq
        · rename_i nsent st' heq
          rw [pieceLoad_ok cmd _ st f rest hsp hf] at heq
          rw [Prod.mk.injEq] at heq
          have hnsent : nsent = min 127 (data.length - offset) := by
            have h1 := Except.ok.inj heq.1
            rw [h128, List.length_drop] at h1
            omega
          have hst' : st' = ⟨rest, st.sent ++ [pieceTx cmd (data.drop offset)], st.timeout⟩ :=
            heq.2.symm
          subst hst'
          have h623 : (data.length - (offset + nsent) + 126) / 127 = (n + 126) / 127 - 1 := by
            omega
          rw [ih (data.length - (offset + nsent)) (by omega) data (offset + nsent) _ rfl
            (by omega) (fun g hg => hok g (by
              rw [hsp, hk1, List.take_succ_cons]
              refine List.mem_cons_of_mem _ ?_
              rw [show (n + 126) / 127 - 1 = (data.length - (offset + nsent) + 126) / 127
                from h623.symm]
              exact hg))
            (by simp only [TKState.pending]; omega)]
          have htail : chunkTxs cmd (data.drop (offset + nsent)) =
              chunkTxs cmd (data.drop (offset + 127)) := by
            by_cases h127 : 127 ≤ data.length - offset
            · have : nsent = 127 := by omega
              rw [this]
            · rw [List.drop_eq_nil_of_le (by omega), List.drop_eq_nil_of_le (by omega)]
          have hchunk : chunkTxs cmd (data.drop offset) =
              pieceTx cmd (data.drop offset) :: chunkTxs cmd (data.drop (offset + 127)) := by
            rw [chunkTxs_cons cmd (data.drop offset)
              (by intro hnil; have := congrArg List.length hnil; simp at this; omega)]
            rw [List.drop_drop]
          have hdropk : (f :: rest).drop ((n + 126) / 127) =
              rest.drop ((data.length - (offset + nsent) + 126) / 127) := by
            have hk : (n + 126) / 127 = ((data.length - (offset + nsent) + 126) / 127) + 1 := by
              omega
            rw [hk, List.drop_succ_cons]
          rw [Prod.mk.injEq]
          refine ⟨rfl, ?_⟩
          rw [TKState.mk.injEq]
          refine ⟨hdropk.symm, ?_, rfl⟩
          rw [htail, hchunk]
          simp
    · rw [dif_neg hlt]
      have hoffl : offset = data.length := by omega
      have hzero : n = 0 := by omega
      subst hzero
      rw [@List.drop_eq_nil_of_le Nat data offset (by omega), chunkTxs_nil]
      simp [hoffl]

theorem chunkLoop_nok_run (cmd : AppCmd) (hc : 0 < cmd.cmdLen.byteLen - 1)
    (h128 : cmd.cmdLen.byteLen - 1 = 127) :
    ∀ (good : List Frame) (data : List Nat) (offset : Nat) (st : TKState)
      (f : Frame) (rest : List Frame),
      st.pending = good ++ f :: rest →
      (∀ g ∈ good, g.getD 2 0 = statusOK) →
      f.getD 2 0 ≠ statusOK →
      offset + good.length * 127 < data.length →
      chunkLoop cmd hc data offset st =
        (.error .signDataNOK,
         ⟨rest, st.sent ++ (chunkTxs cmd (data.drop offset)).take (good.length + 1),
          st.timeout⟩) := by
  intro good
  induction good with
  | nil =>
    intro data offset st f rest hsp hgood hf hlen
    simp only [List.length_nil, Nat.zero_mul, Nat.add_zero] at hlen
    rw [chunkLoop, dif_pos hlen]
    have hchunk : chunkTxs cmd (data.drop offset) =
        pieceTx cmd (data.drop offset) :: chunkTxs cmd (data.drop (offset + 127)) := by
      rw [chunkTxs_cons cmd (data.drop offset)
        (by intro hnil; have := congrArg List.length hnil; simp at this; omega),
        List.drop_drop]
    split
    · rename_i e st' heq
      rw [pieceLoad_nok cmd _ st f rest (by simpa using hsp) hf] at heq
      rw [Prod.mk.injEq] at heq
      rw [← heq.2, ← Except.error.inj heq.1, Prod.mk.injEq]
      refine ⟨rfl, ?_⟩
      rw [TKState.mk.injEq]
      refine ⟨rfl, ?_, rfl⟩
      rw [hchunk]
      simp
    · rename_i nsent st' heq
      rw [pieceLoad_nok cmd _ st f rest (by simpa using hsp) hf] at heq
      simp at heq
  | cons g good ih =>
    intro data offset st f rest hsp hgood hf hlen
    rw [List.length_cons] at hlen
    have hglt : offset < data.length := by omega
    rw [chunkLoop, dif_pos hglt]
    have hchunk : chunkTxs cmd (data.drop offset) =
        pieceTx cmd (data.drop offset) :: chunkTxs cmd (data.drop (offset + 127)) := by
      rw [chunkTxs_cons cmd (data.drop offset)
        (by intro hnil; have := congrArg List.length hnil; simp at this; omega),
        List.drop_drop]
    split
    · rename_i e st' heq
      rw [pieceLoad_ok cmd _ st g (good ++ f :: rest) (by simpa using hsp)
        (hgood g (List.mem_cons_self ..))] at heq
      simp at heq
    · rename_i nsent st' heq
      rw [pieceLoad_ok cmd _ st g (good ++ f :: rest) (by simpa using hsp)
        (hgood g (List.mem_cons_self ..))] at heq
      rw [Prod.mk.injEq] at heq
      have hnsent : nsent = 127 := by
        have h1 := Except.ok.inj heq.1
        rw [h128, List.length_drop] at h1
        omega
      have hst' : st' =
          ⟨good ++ f :: rest, st.sent ++ [pieceTx cmd (data.drop offset)], st.timeout⟩ :=
        heq.2.symm
      subst hst'
      rw [ih data (offset + nsent) _ f rest rfl
        (fun x hx => hgood x (List.mem_cons_of_mem _ hx)) hf (by omega)]
      rw [Prod.mk.injEq]
      refine ⟨rfl, ?_⟩
      rw [TKState.mk.injEq]
      refine ⟨rfl, ?_, rfl⟩
      rw [hnsent, hchunk]
      simp [List.length_cons]

theorem chunkLoop_err_val (cmd : AppCmd) (hc : 0 < cmd.cmdLen.byteLen - 1) :
    ∀ (n : Nat) (data : List Nat) (offset : Nat) (st : TKState)
      (e : SignerErr) (st2 : TKState),
      data.length - offset = n →
      chunkLoop cmd hc data offset st = (.error e, st2) →
      e = .readFrameErr ∨ e = .signDataNOK := by
  intro n
  induction n using Nat.strong_induction_on with
  | _ n ih =>
    intro data offset st e st2 hn h
    rw [chunkLoop] at h
    by_cases hlt : offset < data.length
    · rw [dif_pos hlt] at h
      split at h
      · rename_i e' st' heq
        rw [Prod.mk.injEq] at h
        exact (Except.error.inj h.1) ▸ pieceLoad_err_val _ _ _ _ _ heq
      · rename_i nsent st' heq
        have hv := pieceLoad_ok_val _ _ _ _ _ heq
        rw [List.length_drop] at hv
        exact ih (data.length - (offset + nsent)) (by omega) data (offset + nsent) st'
          e st2 rfl h
    · rw [dif_neg hlt] at h
      simp at h

theorem chunkLoop_sent (cmd : AppCmd) (hc : 0 < cmd.cmdLen.byteLen - 1) :
    ∀ (n : Nat) (data : List Nat) (offset : Nat) (st : TKState),
      data.length - offset = n →
      ∃ l, (chunkLoop cmd hc data offset st).2.sent = st.sent ++ l := by
  intro n
  induction n using Nat.strong_induction_on with
  | _ n ih =>
    intro data offset st hn
    rw [chunkLoop]
    by_cases hlt : offset < data.length
    · rw [dif_pos hlt]
      split
      · rename_i e st' heq
        have hs := pieceLoad_sent cmd (data.drop offset) st
        rw [heq] at hs
        exact ⟨[pieceTx cmd (data.drop offset)], hs⟩
      · rename_i nsent st' heq
        have hv := pieceLoad_ok_val _ _ _ _ _ heq
        rw [List.length_drop] at hv
        obtain ⟨l, hl⟩ :=
          ih (data.length - (offset + nsent)) (by omega) data (offset + nsent) st' rfl
        have hs := pieceLoad_sent cmd (data.drop offset) st
        rw [heq] at hs
        exact ⟨pieceTx cmd (data.drop offset) :: l, by rw [hl, hs]; simp⟩
    · rw [dif_neg hlt]
      exact ⟨[], by simp⟩

theorem pieceTx_take127 (cmd : AppCmd) (h128 : cmd.cmdLen.byteLen - 1 = 127)
    (content : List Nat) : pieceTx cmd content = pieceTx cmd (content.take 127) := by
  have h1 : min 127 (content.take 127).length = min 127 content.length := by
    rw [List.length_take]; omega
  have h2 : (content.take 127).take (min 127 content.length) =
      content.take (min 127 content.length) := by
    rw [List.take_take]
    congr 1
    omega
  simp only [pieceTx, h128, h1, h2]

theorem chunkTxs_getD (cmd : AppCmd) (h128 : cmd.cmdLen.byteLen - 1 = 127) :
    ∀ (i : Nat) (data : List Nat), i < (chunkTxs cmd data).length →
      (chunkTxs cmd data).getD i [] = pieceTx cmd ((data.drop (127 * i)).take 127) := by
  intro i
  induction i with
  | zero =>
    intro data hi
    have hne : data ≠ [] := by
      intro h; rw [h, chunkTxs_nil] at hi; simp at hi
    rw [chunkTxs_cons cmd data hne]
    rw [List.getD_cons_zero, Nat.mul_zero, List.drop_zero]
    exact pieceTx_take127 cmd h128 data
  | succ i ih =>
    intro data hi
    have hne : data ≠ [] := by
      intro h; rw [h, chunkTxs_nil] at hi; simp at hi
    rw [chunkTxs_cons cmd data hne] at hi ⊢
    rw [List.getD_cons_succ]
    rw [ih (data.drop 127) (by simpa using hi), List.drop_drop]
    have h127 : 127 + 127 * i = 127 * (i + 1) := by ring
    rw [h127]

theorem readFrame_cons (st : TKState) (f : Frame) (rest : List Frame)
    (hp : st.pending = f :: rest) :
    readFrame st = (.ok f, ⟨rest, st.sent, st.timeout⟩) := by
  simp [readFrame, hp]

theorem flatten_chunks_length :
    ∀ (l : List Frame), (∀ f ∈ l, f.length = 129) →
      ((l.map fun f => (f.drop 2).take 127).flatten).length = 127 * l.length := by
  intro l
  induction l with
  | nil => simp
  | cons f l ih =>
    intro h
    simp only [List.map_cons, List.flatten_cons, List.length_append, List.length_cons]
    rw [ih (fun g hg => h g (List.mem_cons_of_mem _ hg))]
    have hf : f.length = 129 := h f (List.mem_cons_self ..)
    rw [List.length_take, List.length_drop, hf]
    omega

theorem keyEncryptLoop_run :
    ∀ (count i : Nat) (rsp : List Nat) (st : TKState) (fs rest : List Frame),
      st.pending = fs ++ rest → fs.length = count →
      (∀ f ∈ fs, f.length = 129) →
      (i + count) * 127 ≤ rsp.length →
      keyEncryptLoop i count rsp st =
        (.ok (rsp.take (i * 127) ++
          (((fs.map fun f => (f.drop 2).take 127).flatten) ++ rsp.drop ((i + count) * 127))),
         ⟨rest, st.sent, st.timeout⟩) := by
  intro count
  induction count with
  | zero =>
    intro i rsp st fs rest hsp hlen hf hcap
    have hfs : fs = [] := List.eq_nil_of_length_eq_zero hlen
    subst hfs
    rw [List.nil_append] at hsp
    simp only [keyEncryptLoop, List.map_nil, List.flatten_nil, List.nil_append, Nat.add_zero,
      List.take_append_drop]
    rw [Prod.mk.injEq, TKState.mk.injEq]
    exact ⟨rfl, hsp, rfl, rfl⟩
  | succ c ih =>
    intro i rsp st fs rest hsp hlen hf hcap
    rcases fs with _ | ⟨f, fs'⟩
    · simp at hlen
    · rw [List.length_cons] at hlen
      have hlen' : fs'.length = c := by omega
      have hf0 : f.length = 129 := hf f (List.mem_cons_self ..)
      rw [List.cons_append] at hsp
      have hA : (rsp.take (i * 127)).length = i * 127 := by
        rw [List.length_take]
        omega
      have hB : (f.drop 2).length = 127 := by
        rw [List.length_drop, hf0]
      have hsc := sliceCopy_fill (rsp.take (i * 127)) (rsp.drop (i * 127)) (f.drop 2)
        (i * 127) 127 hA hB
      rw [List.take_append_drop] at hsc
      simp only [keyEncryptLoop]
      split
      · rename_i e st' heq
        rw [readFrame_cons st f (fs' ++ rest) hsp] at heq
        simp at heq
      · rename_i rx st' heq
        rw [readFrame_cons st f (fs' ++ rest) hsp] at heq
        rw [Prod.mk.injEq] at heq
        have hrx : f = rx := Except.ok.inj heq.1
        have hst' : st' = ⟨fs' ++ rest, st.sent, st.timeout⟩ := heq.2.symm
        subst hst'
        subst hrx
        simp only [hsc]
        rw [if_neg (by simp)]
        rw [ih (i + 1)
          (rsp.take (i * 127) ++ (f.drop 2 ++ (rsp.drop (i * 127)).drop 127))
          ⟨fs' ++ rest, st.sent, st.timeout⟩ fs' rest rfl hlen'
          (fun g hg => hf g (List.mem_cons_of_mem _ hg))
          (by
            simp only [List.length_append, List.length_drop, hA, hB]
            omega)]
        have e1 : (rsp.take (i * 127) ++ (f.drop 2 ++ (rsp.drop (i * 127)).drop 127)).take
            ((i + 1) * 127) = rsp.take (i * 127) ++ f.drop 2 := by
          rw [show (i + 1) * 127 = (rsp.take (i * 127)).length + 127 by rw [hA]; ring]
          rw [List.take_append, List.take_left' hB]
        have hAB : (rsp.take (i * 127) ++ f.drop 2).length = i * 127 + 127 := by
          rw [List.length_append, hA, hB]
        have e2 : (rsp.take (i * 127) ++ (f.drop 2 ++ (rsp.drop (i * 127)).drop 127)).drop
            ((i + 1 + c) * 127) = rsp.drop ((i + (c + 1)) * 127) := by
          rw [← List.append_assoc]
          have harith : (i + 1 + c) * 127 =
              (rsp.take (i * 127) ++ f.drop 2).length + c * 127 := by
            rw [hAB]; ring
          rw [harith, List.drop_append, List.drop_drop, List.drop_drop]
          congr 1
          ring
        rw [e1, e2]
        rw [List.map_cons, List.flatten_cons, List.take_of_length_le (le_of_eq hB)]
        simp [List.append_assoc]

theorem keyEncrypt_run (st : TKState) (fs rest : List Frame)
    (hp : st.pending = fs ++ rest) (hlen : fs.length = 14)
    (hf : ∀ f ∈ fs, f.length = 129) :
    keyEncrypt st =
      (.ok (encBlob fs),
       ⟨rest, st.sent ++ [newFrameBuf cmdEncryptKey 2], st.timeout⟩) := by
  have h13 : 13 < fs.length := by omega
  have hdecomp : fs = fs.take 13 ++ (fs.getD 13 [] :: []) := by
    have hgd : fs.getD 13 [] = fs[13] := by
      rw [List.getD_eq_getElem?_getD, List.getElem?_eq_getElem h13, Option.getD_some]
    have hd13 : fs.drop 13 = fs[13] :: fs.drop 14 := List.drop_eq_getElem_cons h13
    have hd14 : fs.drop 14 = [] := List.drop_eq_nil_of_le (by omega)
    rw [hgd]
    rw [hd14] at hd13
    rw [← hd13, List.take_append_drop]
  have hp2 : st.pending = fs.take 13 ++ (fs.getD 13 [] :: rest) := by
    rw [hp]
    conv_lhs => rw [hdecomp]
    simp
  have hwp : (write (newFrameBuf cmdEncryptKey 2) st).pending =
      fs.take 13 ++ (fs.getD 13 [] :: rest) := by
    simp [write, hp2]
  have hlen13 : (fs.take 13).length = 13 := by
    rw [List.length_take]
    omega
  have htl : ∀ g ∈ fs.take 13, g.length = 129 :=
    fun g hg => hf g (List.mem_of_mem_take hg)
  have hgd2 : fs.getD 13 [] = fs[13] := by
    rw [List.getD_eq_getElem?_getD, List.getElem?_eq_getElem h13, Option.getD_some]
  have hft : (fs.getD 13 []).length = 129 := by
    rw [hgd2]
    exact hf _ (List.getElem_mem ..)
  have hfl : (((fs.take 13).map fun f => (f.drop 2).take 127).flatten).length = 1651 := by
    rw [flatten_chunks_length (fs.take 13) htl, hlen13]
  simp only [keyEncrypt]
  split
  · rename_i e st' heq
    rw [keyEncryptLoop_run 13 0 (List.replicate 1676 0) _ (fs.take 13)
      (fs.getD 13 [] :: rest) hwp hlen13 htl
      (by simp only [List.length_replicate]; omega)] at heq
    rw [Prod.mk.injEq] at heq
    exact Except.noConfusion heq.1
  · rename_i rsp st' heq
    rw [keyEncryptLoop_run 13 0 (List.replicate 1676 0) _ (fs.take 13)
      (fs.getD 13 [] :: rest) hwp hlen13 htl
      (by simp only [List.length_replicate]; omega)] at heq
    rw [Prod.mk.injEq] at heq
    have hrsp := (Except.ok.inj heq.1).symm
    have hst' : st' =
        ⟨fs.getD 13 [] :: rest, (write (newFrameBuf cmdEncryptKey 2) st).sent,
         (write (newFrameBuf cmdEncryptKey 2) st).timeout⟩ := heq.2.symm
    subst hst'
    subst hrsp
    split
    · rename_i e st2 heq2
      rw [readFrame_cons _ (fs.getD 13 []) rest rfl] at heq2
      simp at heq2
    · rename_i rx st2 heq2
      rw [readFrame_cons _ (fs.getD 13 []) rest rfl] at heq2
      rw [Prod.mk.injEq] at heq2
      have hrx : rx = fs.getD 13 [] := (Except.ok.inj heq2.1).symm
      have hst2 : st2 =
          ⟨rest, (write (newFrameBuf cmdEncryptKey 2) st).sent,
           (write (newFrameBuf cmdEncryptKey 2) st).timeout⟩ := heq2.2.symm
      subst hst2
      subst hrx
      have hsimp : List.take (0 * 127) (List.replicate 1676 (0 : Nat)) ++
          ((((fs.take 13).map fun f => (f.drop 2).take 127).flatten) ++
            List.drop ((0 + 13) * 127) (List.replicate 1676 (0 : Nat))) =
          (((fs.take 13).map fun f => (f.drop 2).take 127).flatten) ++
            List.replicate 25 0 := by
        rw [show (0 : Nat) * 127 = 0 from rfl, List.take_zero, List.nil_append,
          show (0 + 13) * 127 = 1651 from rfl, List.drop_replicate]
      rw [hsimp]
      have hsrc : (((fs.getD 13 []).drop 2).take 25).length = 25 := by
        rw [List.length_take, List.length_drop, hft]
        omega
      have hsc := sliceCopy_fill (((fs.take 13).map fun f => (f.drop 2).take 127).flatten)
        (List.replicate 25 0) (((fs.getD 13 []).drop 2).take 25) 1651 25 hfl hsrc
      rw [hsc]
      rw [if_neg (by simp)]
      rw [Prod.mk.injEq]
      constructor
      · rw [encBlob]
        simp
      · rw [TKState.mk.injEq]
        exact ⟨rfl, by simp [write], by simp [write]⟩

theorem sliceCopy_fill0 (dst src : List Nat) (cap : Nat) (hsrc : src.length = cap) :
    sliceCopy dst 0 cap src = (src ++ dst.drop cap, cap) := by
  subst hsrc
  simp [sliceCopy]

theorem readFrame_sent_of (s : TKState) (r : Except SignerErr Frame) (s2 : TKState)
    (heq : readFrame s = (r, s2)) : s2.sent = s.sent := by
  have h := readFrame_sent s
  rw [heq] at h
  exact h

theorem GetPubkey_run (st : TKState) (f1 f2 f3 : Frame) (rest : List Frame)
    (hp : st.pending = f1 :: f2 :: f3 :: rest)
    (h1 : f1.length = 129) (h2 : f2.length = 129) (h3 : f3.length = 129) :
    GetPubkey st =
      (.ok (f1.drop 2 ++ (f2.drop 2 ++ (f3.drop 2).take 2)),
       ⟨rest, st.sent ++ [newFrameBuf cmdGetPubkey 2], st.timeout⟩) := by
  have hd1 : (f1.drop 2).length = 127 := by rw [List.length_drop, h1]
  have hd2 : (f2.drop 2).length = 127 := by rw [List.length_drop, h2]
  have hd3 : ((f3.drop 2).take 2).length = 2 := by
    rw [List.length_take, List.length_drop, h3]
    omega
  have hwp : (write (newFrameBuf cmdGetPubkey 2) st).pending = f1 :: f2 :: f3 :: rest := by
    simp [write, hp]
  have c1 : sliceCopy (List.replicate 256 0) 0 127 (f1.drop 2) =
      (f1.drop 2 ++ List.replicate 129 0, 127) := by
    rw [sliceCopy_fill0 _ _ _ hd1, List.drop_replicate]
  have c2 : sliceCopy (f1.drop 2 ++ List.replicate 129 0) 127 127 (f2.drop 2) =
      (f1.drop 2 ++ (f2.drop 2 ++ List.replicate 2 0), 127) := by
    rw [sliceCopy_fill (f1.drop 2) (List.replicate 129 0) (f2.drop 2) 127 127 hd1 hd2,
      List.drop_replicate]
  have c3 : sliceCopy (f1.drop 2 ++ (f2.drop 2 ++ List.replicate 2 0)) 254 2
      ((f3.drop 2).take 2) =
      ((f1.drop 2 ++ f2.drop 2) ++ ((f3.drop 2).take 2 ++ List.replicate 0 0), 2) := by
    rw [← List.append_assoc]
    rw [sliceCopy_fill (f1.drop 2 ++ f2.drop 2) (List.replicate 2 0) ((f3.drop 2).take 2)
      254 2 (by rw [List.length_append, hd1, hd2]) hd3]
    rw [List.drop_replicate]
  simp only [GetPubkey]
  split
  · rename_i e st1 heq
    rw [readFrame_cons _ f1 (f2 :: f3 :: rest) hwp] at heq
    rw [Prod.mk.injEq] at heq
    exact Except.noConfusion heq.1
  · rename_i rx1 st1 heq
    rw [readFrame_cons _ f1 (f2 :: f3 :: rest) hwp] at heq
    rw [Prod.mk.injEq] at heq
    have hrx1 : f1 = rx1 := Except.ok.inj heq.1
    have hst1 : st1 =
        ⟨f2 :: f3 :: rest, (write (newFrameBuf cmdGetPubkey 2) st).sent,
         (write (newFrameBuf cmdGetPubkey 2) st).timeout⟩ := heq.2.symm
    subst hst1
    subst hrx1
    split
    · rename_i e st2 heq2
      rw [readFrame_cons _ f2 (f3 :: rest) rfl] at heq2
      rw [Prod.mk.injEq] at heq2
      exact Except.noConfusion heq2.1
    · rename_i rx2 st2 heq2
      rw [readFrame_cons _ f2 (f3 :: rest) rfl] at heq2
      rw [Prod.mk.injEq] at heq2
      have hrx2 : f2 = rx2 := Except.ok.inj heq2.1
      have hst2 : st2 =
          ⟨f3 :: rest, (write (newFrameBuf cmdGetPubkey 2) st).sent,
           (write (newFrameBuf cmdGetPubkey 2) st).timeout⟩ := heq2.2.symm
      subst hst2
      subst hrx2
      split
      · rename_i e st3 heq3
        rw [readFrame_cons _ f3 rest rfl] at heq3
        rw [Prod.mk.injEq] at heq3
        exact Except.noConfusion heq3.1
      · rename_i rx3 st3 heq3
        rw [readFrame_cons _ f3 rest rfl] at heq3
        rw [Prod.mk.injEq] at heq3
        have hrx3 : f3 = rx3 := Except.ok.inj heq3.1
        have hst3 : st3 =
            ⟨rest, (write (newFrameBuf cmdGetPubkey 2) st).sent,
             (write (newFrameBuf cmdGetPubkey 2) st).timeout⟩ := heq3.2.symm
        subst hst3
        subst hrx3
        simp only [c1, c2, c3]
        rw [Prod.mk.injEq]
        constructor
        · simp [List.append_assoc]
        · rw [TKState.mk.injEq]
          exact ⟨rfl, by simp [write], by simp [write]⟩

theorem getSig_run (st : TKState) (f1 f2 f3 : Frame) (rest : List Frame)
    (hp : st.pending = f1 :: f2 :: f3 :: rest)
    (h1 : f1.length = 129) (h2 : f2.length = 129) (h3 : f3.length = 129) :
    getSig st =
      (.ok (f1.drop 2 ++ (f2.drop 2 ++ (f3.drop 2).take 2)),
       ⟨rest, st.sent ++ [newFrameBuf cmdGetSig 2], st.timeout⟩) := by
  have hd1 : (f1.drop 2).length = 127 := by rw [List.length_drop, h1]
  have hd2 : (f2.drop 2).length = 127 := by rw [List.length_drop, h2]
  have hd3 : ((f3.drop 2).take 2).length = 2 := by
    rw [List.length_take, List.length_drop, h3]
    omega
  have hwp : (write (newFrameBuf cmdGetSig 2) st).pending = f1 :: f2 :: f3 :: rest := by
    simp [write, hp]
  have c1 : sliceCopy (List.replicate 256 0) 0 127 (f1.drop 2) =
      (f1.drop 2 ++ List.replicate 129 0, 127) := by
    rw [sliceCopy_fill0 _ _ _ hd1, List.drop_replicate]
  have c2 : sliceCopy (f1.drop 2 ++ List.replicate 129 0) 127 127 (f2.drop 2) =
      (f1.drop 2 ++ (f2.drop 2 ++ List.replicate 2 0), 127) := by
    rw [sliceCopy_fill (f1.drop 2) (List.replicate 129 0) (f2.drop 2) 127 127 hd1 hd2,
      List.drop_replicate]
  have c3 : sliceCopy (f1.drop 2 ++ (f2.drop 2 ++ List.replicate 2 0)) 254 2
      ((f3.drop 2).take 2) =
      ((f1.drop 2 ++ f2.drop 2) ++ ((f3.drop 2).take 2 ++ List.replicate 0 0), 2) := by
    rw [← List.append_assoc]
    rw [sliceCopy_fill (f1.drop 2 ++ f2.drop 2) (List.replicate 2 0) ((f3.drop 2).take 2)
      254 2 (by rw [List.length_append, hd1, hd2]) hd3]
    rw [List.drop_replicate]
  simp only [getSig]
  split
  · rename_i e st1 heq
    rw [readFrame_cons _ f1 (f2 :: f3 :: rest) hwp] at heq
    rw [Prod.mk.injEq] at heq
    exact Except.noConfusion heq.1
  · rename_i rx1 st1 heq
    rw [readFrame_cons _ f1 (f2 :: f3 :: rest) hwp] at heq
    rw [Prod.mk.injEq] at heq
    have hrx1 : f1 = rx1 := Except.ok.inj heq.1
    have hst1 : st1 =
        ⟨f2 :: f3 :: rest, (write (newFrameBuf cmdGetSig 2) st).sent,
         (write (newFrameBuf cmdGetSig 2) st).timeout⟩ := heq.2.symm
    subst hst1
    subst hrx1
    split
    · rename_i e st2 heq2
      rw [readFrame_cons _ f2 (f3 :: rest) rfl] at heq2
      rw [Prod.mk.injEq] at heq2
      exact Except.noConfusion heq2.1
    · rename_i rx2 st2 heq2
      rw [readFrame_cons _ f2 (f3 :: rest) rfl] at heq2
      rw [Prod.mk.injEq] at heq2
      have hrx2 : f2 = rx2 := Except.ok.inj heq2.1
      have hst2 : st2 =
          ⟨f3 :: rest, (write (newFrameBuf cmdGetSig 2) st).sent,
           (write (newFrameBuf cmdGetSig 2) st).timeout⟩ := heq2.2.symm
      subst hst2
      subst hrx2
      split
      · rename_i e st3 heq3
        rw [readFrame_cons _ f3 rest rfl] at heq3
        rw [Prod.mk.injEq] at heq3
        exact Except.noConfusion heq3.1
      · rename_i rx3 st3 heq3
        rw [readFrame_cons _ f3 rest rfl] at heq3
        rw [Prod.mk.injEq] at heq3
        have hrx3 : f3 = rx3 := Except.ok.inj heq3.1
        have hst3 : st3 =
            ⟨rest, (write (newFrameBuf cmdGetSig 2) st).sent,
             (write (newFrameBuf cmdGetSig 2) st).timeout⟩ := heq3.2.symm
        subst hst3
        subst hrx3
        simp only [c1, c2, c3]
        rw [Prod.mk.injEq]
        constructor
        · simp [List.append_assoc]
        · rw [TKState.mk.injEq]
          exact ⟨rfl, by simp [write], by simp [write]⟩

theorem GetPubkey_ok_any (st : TKState) (f1 f2 f3 : Frame) (rest : List Frame)
    (hp : st.pending = f1 :: f2 :: f3 :: rest) :
    ∃ b st2, GetPubkey st = (.ok b, st2) := by
  have hwp : (write (newFrameBuf cmdGetPubkey 2) st).pending = f1 :: f2 :: f3 :: rest := by
    simp [write, hp]
  simp only [GetPubkey]
  split
  · rename_i e st1 heq
    rw [readFrame_cons _ f1 (f2 :: f3 :: rest) hwp] at heq
    rw [Prod.mk.injEq] at heq
    exact Except.noConfusion heq.1
  · rename_i rx1 st1 heq
    rw [readFrame_cons _ f1 (f2 :: f3 :: rest) hwp] at heq
    rw [Prod.mk.injEq] at heq
    have hst1 : st1 =
        ⟨f2 :: f3 :: rest, (write (newFrameBuf cmdGetPubkey 2) st).sent,
         (write (newFrameBuf cmdGetPubkey 2) st).timeout⟩ := heq.2.symm
    subst hst1
    split
    · rename_i e st2 heq2
      rw [readFrame_cons _ f2 (f3 :: rest) rfl] at heq2
      rw [Prod.mk.injEq] at heq2
      exact Except.noConfusion heq2.1
    · rename_i rx2 st2 heq2
      rw [readFrame_cons _ f2 (f3 :: rest) rfl] at heq2
      rw [Prod.mk.injEq] at heq2
      have hst2 : st2 =
          ⟨f3 :: rest, (write (newFrameBuf cmdGetPubkey 2) st).sent,
           (write (newFrameBuf cmdGetPubkey 2) st).timeout⟩ := heq2.2.symm
      subst hst2
      split
      · rename_i e st3 heq3
        rw [readFrame_cons _ f3 rest rfl] at heq3
        rw [Prod.mk.injEq] at heq3
        exact Except.noConfusion heq3.1
      · exact ⟨_, _, rfl⟩

theorem getSig_ok_any (st : TKState) (f1 f2 f3 : Frame) (rest : List Frame)
    (hp : st.pending = f1 :: f2 :: f3 :: rest) :
    ∃ b st2, getSig st = (.ok b, st2) := by
  have hwp : (write (newFrameBuf cmdGetSig 2) st).pending = f1 :: f2 :: f3 :: rest := by
    simp [write, hp]
  simp only [getSig]
  split
  · rename_i e st1 heq
    rw [readFrame_cons _ f1 (f2 :: f3 :: rest) hwp] at heq
    rw [Prod.mk.injEq] at heq
    exact Except.noConfusion heq.1
  · rename_i rx1 st1 heq
    rw [readFrame_cons _ f1 (f2 :: f3 :: rest) hwp] at heq
    rw [Prod.mk.injEq] at heq
    have hst1 : st1 =
        ⟨f2 :: f3 :: rest, (write (newFrameBuf cmdGetSig 2) st).sent,
         (write (newFrameBuf cmdGetSig 2) st).timeout⟩ := heq.2.symm
    subst hst1
    split
    · rename_i e st2 heq2
      rw [readFrame_cons _ f2 (f3 :: rest) rfl] at heq2
      rw [Prod.mk.injEq] at heq2
      exact Except.noConfusion heq2.1
    · rename_i rx2 st2 heq2
      rw [readFrame_cons _ f2 (f3 :: rest) rfl] at heq2
      rw [Prod.mk.injEq] at heq2
      have hst2 : st2 =
          ⟨f3 :: rest, (write (newFrameBuf cmdGetSig 2) st).sent,
           (write (newFrameBuf cmdGetSig 2) st).timeout⟩ := heq2.2.symm
      subst hst2
      split
      · rename_i e st3 heq3
        rw [readFrame_cons _ f3 rest rfl] at heq3
        rw [Prod.mk.injEq] at heq3
        exact Except.noConfusion heq3.1
      · exact ⟨_, _, rfl⟩

theorem getSig_sent (st : TKState) :
    (getSig st).2.sent = st.sent ++ [newFrameBuf cmdGetSig 2] := by
  simp only [getSig]
  split
  · rename_i e st1 heq
    have h1 := readFrame_sent_of _ _ _ heq
    simpa [write] using h1
  · rename_i rx1 st1 heq
    have h1 := readFrame_sent_of _ _ _ heq
    split
    · rename_i e st2 heq2
      have g2 := readFrame_sent_of _ _ _ heq2
      simpa [write] using g2.trans h1
    · rename_i rx2 st2 heq2
      have g2 := readFrame_sent_of _ _ _ heq2
      split
      · rename_i e st3 heq3
        have g3 := readFrame_sent_of _ _ _ heq3
        simpa [write] using (g3.trans g2).trans h1
      · rename_i rx3 st3 heq3
        have g3 := readFrame_sent_of _ _ _ heq3
        simpa [write] using (g3.trans g2).trans h1

theorem getSig_err_val (st : TKState) (e : SignerErr) (st2 : TKState)
    (h : getSig st = (.error e, st2)) : e = .readFrameErr := by
  simp only [getSig] at h
  split at h
  · rename_i e1 s1 heq
    rw [Prod.mk.injEq] at h
    have hv := readFrame_err_val _ _ _ heq
    exact (Except.error.inj h.1) ▸ hv.1
  · rename_i rx1 s1 heq
    split at h
    · rename_i e2 s2 heq2
      rw [Prod.mk.injEq] at h
      have hv := readFrame_err_val _ _ _ heq2
      exact (Except.error.inj h.1) ▸ hv.1
    · rename_i rx2 s2 heq2
      split at h
      · rename_i e3 s3 heq3
        rw [Prod.mk.injEq] at h
        have hv := readFrame_err_val _ _ _ heq3
        exact (Except.error.inj h.1) ▸ hv.1
      · rw [Prod.mk.injEq] at h
        exact Except.noConfusion h.1

theorem transferKey_run (data : List Nat) (st : TKState) (f : Frame) (rest : List Frame)
    (hp : st.pending = f :: rest) (hf : f.getD 2 0 = statusOK)
    (hok : ∀ g ∈ rest.take ((data.length + 126) / 127), g.getD 2 0 = statusOK)
    (hcount : (data.length + 126) / 127 ≤ rest.length) :
    transferKey data st =
      (.ok (), ⟨rest.drop ((data.length + 126) / 127),
        st.sent ++ setSizeTx data.length :: chunkTxs cmdLoadKey data, st.timeout⟩) := by
  simp only [transferKey]
  split
  · rename_i e st1 heq
    rw [setSize_ok data.length st f rest hp hf] at heq
    rw [Prod.mk.injEq] at heq
    exact Except.noConfusion heq.1
  · rename_i u st1 heq
    rw [setSize_ok data.length st f rest hp hf] at heq
    rw [Prod.mk.injEq] at heq
    have hst1 : st1 = ⟨rest, st.sent ++ [setSizeTx data.length], st.timeout⟩ := heq.2.symm
    subst hst1
    split
    · rename_i e st2 heq2
      rw [chunkLoop_ok_run cmdLoadKey (by decide) (by decide) data.length data 0 _
        (by omega) (by omega) (fun g hg => hok g hg) hcount] at heq2
      rw [Prod.mk.injEq] at heq2
      exact Except.noConfusion heq2.1
    · rename_i o st2 heq2
      rw [chunkLoop_ok_run cmdLoadKey (by decide) (by decide) data.length data 0 _
        (by omega) (by omega) (fun g hg => hok g hg) hcount] at heq2
      rw [Prod.mk.injEq] at heq2
      have ho : o = data.length := (Except.ok.inj heq2.1).symm
      have hst2 : st2 =
          ⟨rest.drop ((data.length + 126) / 127),
           (st.sent ++ [setSizeTx data.length]) ++ chunkTxs cmdLoadKey (data.drop 0),
           st.timeout⟩ := heq2.2.symm
      subst hst2
      subst ho
      rw [if_neg (by omega)]
      rw [Prod.mk.injEq, TKState.mk.injEq]
      refine ⟨rfl, rfl, ?_, rfl⟩
      rw [List.drop_zero]
      simp

theorem loadEncKey_run (data : List Nat) (st : TKState) (f : Frame) (rest : List Frame)
    (hp : st.pending = f :: rest) (hf : f.getD 2 0 = statusOK)
    (hok : ∀ g ∈ rest.take ((data.length + 126) / 127), g.getD 2 0 = statusOK)
    (hcount : (data.length + 126) / 127 ≤ rest.length) :
    loadEncKey data st =
      (.ok (), ⟨rest.drop ((data.length + 126) / 127),
        st.sent ++ setSizeTx data.length :: chunkTxs cmdLoadEncKey data, st.timeout⟩) := by
  simp only [loadEncKey]
  split
  · rename_i e st1 heq
    rw [setSize_ok data.length st f rest hp hf] at heq
    rw [Prod.mk.injEq] at heq
    exact Except.noConfusion heq.1
  · rename_i u st1 heq
    rw [setSize_ok data.length st f rest hp hf] at heq
    rw [Prod.mk.injEq] at heq
    have hst1 : st1 = ⟨rest, st.sent ++ [setSizeTx data.length], st.timeout⟩ := heq.2.symm
    subst hst1
    split
    · rename_i e st2 heq2
      rw [chunkLoop_ok_run cmdLoadEncKey (by decide) (by decide) data.length data 0 _
        (by omega) (by omega) (fun g hg => hok g hg) hcount] at heq2
      rw [Prod.mk.injEq] at heq2
      exact Except.noConfusion heq2.1
    · rename_i o st2 heq2
      rw [chunkLoop_ok_run cmdLoadEncKey (by decide) (by decide) data.length data 0 _
        (by omega) (by omega) (fun g hg => hok g hg) hcount] at heq2
      rw [Prod.mk.injEq] at heq2
      have ho : o = data.length := (Except.ok.inj heq2.1).symm
      have hst2 : st2 =
          ⟨rest.drop ((data.length + 126) / 127),
           (st.sent ++ [setSizeTx data.length]) ++ chunkTxs cmdLoadEncKey (data.drop 0),
           st.timeout⟩ := heq2.2.symm
      subst hst2
      subst ho
      rw [if_neg (by omega)]
      rw [Prod.mk.injEq, TKState.mk.injEq]
      refine ⟨rfl, rfl, ?_, rfl⟩
      rw [List.drop_zero]
      simp

theorem GetAppNameVersion_empty (st : TKState) (hp : st.pending = []) :
    GetAppNameVersion st =
      (.error .readFrameErr,
       ⟨[], st.sent ++ [newFrameBuf cmdGetNameVersion 2], 2⟩) := by
  simp [GetAppNameVersion, write, setReadTimeout, readFrame, hp]

theorem GetAppNameVersion_cons (st : TKState) (f : Frame) (rest : List Frame)
    (hp : st.pending = f :: rest) :
    GetAppNameVersion st =
      (.ok (f.drop 2),
       ⟨rest, st.sent ++ [newFrameBuf cmdGetNameVersion 2], 0⟩) := by
  simp [GetAppNameVersion, write, setReadTimeout, readFrame, hp]

theorem GetFWDigest_nok (len : Nat) (st : TKState) (f : Frame) (rest : List Frame)
    (hp : st.pending = f :: rest) (hf : f.getD 2 0 ≠ statusOK) :
    GetFWDigest len st =
      (.error .fwHashNOK, ⟨rest, st.sent ++ [fwTx len], st.timeout⟩) := by
  simp only [List.getD_eq_getElem?_getD] at hf
  simp [GetFWDigest, write, readFrame, hp, hf]

theorem GetFWDigest_ok (len : Nat) (st : TKState) (f : Frame) (rest : List Frame)
    (hp : st.pending = f :: rest) (hf : f.getD 2 0 = statusOK) :
    GetFWDigest len st =
      (.ok ((f.drop 3).take 64), ⟨rest, st.sent ++ [fwTx len], st.timeout⟩) := by
  simp only [List.getD_eq_getElem?_getD] at hf
  simp [GetFWDigest, write, readFrame, hp, hf]

theorem fwTx_bytes (len : Nat) :
    fwTx len = (2 * 32 + destApp * 8 + CmdLen.lenCode CmdLen.cmdLen32) ::
      cmdGetFirmwareHash.code :: (len % 256) :: (len / 256 % 256) ::
      (len / 65536 % 256) :: (len / 16777216 % 256) :: List.replicate 27 0 := by
  simp [fwTx, writeBytesAt, newFrameBuf, cmdGetFirmwareHash, CmdLen.byteLen, CmdLen.lenCode,
    List.take_succ_cons, List.drop_succ_cons, List.drop_replicate]

/-! ### Claim theorems -/

/-- C7: for every byte count, `GetFWDigest` sends a single request frame
carrying the count as a 32-bit little-endian value at byte offsets 2..5
(8192 becomes bytes 00 20 00 00), fails with an error whenever the
response status byte is not success, and on success returns exactly the
64 bytes starting at byte offset 3 of the response frame. -/
theorem C7_getFWDigest_spec (len : Nat) (st : TKState) (f : Frame) (rest : List Frame)
    (hp : st.pending = f :: rest) :
    (GetFWDigest len st).2.sent = st.sent ++ [fwTx len] ∧
    fwTx len = (2 * 32 + destApp * 8 + CmdLen.lenCode CmdLen.cmdLen32) ::
      cmdGetFirmwareHash.code :: (len % 256) :: (len / 256 % 256) ::
      (len / 65536 % 256) :: (len / 16777216 % 256) :: List.replicate 27 0 ∧
    fwTx 8192 = (2 * 32 + destApp * 8 + CmdLen.lenCode CmdLen.cmdLen32) ::
      cmdGetFirmwareHash.code :: 0x00 :: 0x20 :: 0x00 :: 0x00 :: List.replicate 27 0 ∧
    (f.getD 2 0 ≠ statusOK →
      GetFWDigest len st =
        (.error .fwHashNOK, ⟨rest, st.sent ++ [fwTx len], st.timeout⟩)) ∧
    (f.getD 2 0 = statusOK → f.length = 129 →
      GetFWDigest len st =
        (.ok ((f.drop 3).take 64), ⟨rest, st.sent ++ [fwTx len], st.timeout⟩) ∧
      ((f.drop 3).take 64).length = 64) := by
  refine ⟨?_, fwTx_bytes len, by decide, ?_, ?_⟩
  · by_cases hf : f.getD 2 0 = statusOK
    · rw [GetFWDigest_ok len st f rest hp hf]
    · rw [GetFWDigest_nok len st f rest hp hf]
  · intro hf
    exact GetFWDigest_nok len st f rest hp hf
  · intro hf hlen
    refine ⟨GetFWDigest_ok len st f rest hp hf, ?_⟩
    rw [List.length_take, List.length_drop, hlen]
    omega

/-- C7 witness: a digest request for byte count 8192 against a device
answering one all-zero (success) frame. -/
theorem C7_getFWDigest_spec_witness :
    GetFWDigest 8192 ⟨[okFrame], [], 0⟩ =
      (.ok ((okFrame.drop 3).take 64), ⟨[], [fwTx 8192], 0⟩) ∧
    ((okFrame.drop 3).take 64).length = 64 :=
  (C7_getFWDigest_spec 8192 ⟨[okFrame], [], 0⟩ okFrame [] rfl).2.2.2.2
    (by decide) (by decide)

/-- C8 counterexample: when the single frame read fails (no response
available), `GetAppNameVersion` returns with the read timeout still set to
2 seconds; it is not restored to blocking (0), contradicting the claim
that the timeout is back to unbounded after any call. -/
theorem C8_timeout_counterexample :
    (GetAppNameVersion ⟨[], [], 0⟩).1 = .error .readFrameErr ∧
    (GetAppNameVersion ⟨[], [], 0⟩).2.timeout = 2 := by
  constructor <;> rfl

/-- C8 (amended): `GetAppNameVersion` leaves the read timeout at 0
(blocking) after a successful call, but at 2 seconds when the frame read
fails, because the error path returns before the timeout is restored. -/
theorem C8_timeout_behaviour (st : TKState) :
    (GetAppNameVersion st).2.timeout =
      if resIsOk (GetAppNameVersion st) then 0 else 2 := by
  rcases hsp : st.pending with _ | ⟨f, rest⟩
  · rw [GetAppNameVersion_empty st hsp]
    rfl
  · rw [GetAppNameVersion_cons st f rest hsp]
    rfl

/-- C1 counterexample: for a 4097-byte message (one byte above
`MaxSignSize`), `Sign` does not reject the input: it declares the payload
size to the device by writing the set-size frame for 4097 (and the
eventual failure here is only the mocked transport's read error, not an
input-validation error). -/
theorem C1_sign_oversize_counterexample :
    MaxSignSize < (List.replicate 4097 (0 : Nat)).length ∧
    resErr (Sign (List.replicate 4097 0) ⟨[], [], 0⟩) = some .readFrameErr ∧
    (Sign (List.replicate 4097 0) ⟨[], [], 0⟩).2.sent = [setSizeTx 4097] := by
  have hlen : (List.replicate 4097 (0 : Nat)).length = 4097 := List.length_replicate ..
  have hss := setSize_empty (List.replicate 4097 (0 : Nat)).length ⟨[], [], 0⟩ rfl
  refine ⟨by rw [hlen]; decide, ?_, ?_⟩
  · simp only [Sign]
    split
    · rename_i e st1 heq
      rw [hss] at heq
      rw [Prod.mk.injEq] at heq
      obtain ⟨h1, h2⟩ := heq
      subst h2
      rw [← Except.error.inj h1]
      rfl
    · rename_i u st1 heq
      rw [hss] at heq
      rw [Prod.mk.injEq] at heq
      exact Except.noConfusion heq.1
  · simp only [Sign]
    split
    · rename_i e st1 heq
      rw [hss] at heq
      rw [Prod.mk.injEq] at heq
      obtain ⟨h1, h2⟩ := heq
      subst h2
      rw [hlen]
      rfl
    · rename_i u st1 heq
      rw [hss] at heq
      rw [Prod.mk.injEq] at heq
      exact Except.noConfusion heq.1

/-- C1 (amended): `Sign` performs no client-side comparison with
`MaxSignSize`: for every message, of any length, its first action is to
write the set-size frame declaring `len(message)` and proceed with the
protocol; rejection of oversized messages is left to the device's status
responses. -/
theorem C1_sign_no_size_validation (data : List Nat) (st : TKState) :
    ∃ l, (Sign data st).2.sent = st.sent ++ setSizeTx data.length :: l := by
  simp only [Sign]
  split
  · rename_i e st1 heq
    have hs := setSize_sent data.length st
    rw [heq] at hs
    exact ⟨[], hs⟩
  · rename_i u st1 heq
    have hs := setSize_sent data.length st
    rw [heq] at hs
    split
    · rename_i e st2 heq2
      obtain ⟨l2, hl2⟩ :=
        chunkLoop_sent cmdSignData (by decide) (data.length - 0) data 0 st1 rfl
      rw [heq2] at hl2
      exact ⟨l2, by rw [hl2, hs]; simp⟩
    · rename_i o st2 heq2
      obtain ⟨l2, hl2⟩ :=
        chunkLoop_sent cmdSignData (by decide) (data.length - 0) data 0 st1 rfl
      rw [heq2] at hl2
      by_cases hov : o > data.length
      · rw [if_pos hov]
        exact ⟨l2, by rw [hl2, hs]; simp⟩
      · rw [if_neg hov]
        split
        · rename_i e st3 heq3
          have hg := getSig_sent st2
          rw [heq3] at hg
          exact ⟨l2 ++ [newFrameBuf cmdGetSig 2], by rw [hg, hl2, hs]; simp⟩
        · rename_i sg st3 heq3
          have hg := getSig_sent st2
          rw [heq3] at hg
          exact ⟨l2 ++ [newFrameBuf cmdGetSig 2], by rw [hg, hl2, hs]; simp⟩

/-- C9: the claim says `LoadKey` fails whenever fewer than 1676 bytes can
be read, but the guard in the source is `n1 < 1675`: a 1675-byte read (one
byte short of the full 1676-byte key buffer) passes the validation and the
workflow proceeds to the device (failing here only because the mocked
device has no response frames), while a 1674-byte read is rejected. -/
theorem C9_loadKey_short_read_boundary :
    1675 < 1676 ∧
    resErr (LoadKey 1675 (List.replicate 1676 0) false 1676 ⟨[], [], 0⟩) =
      some .readFrameErr ∧
    resErr (LoadKey 1674 (List.replicate 1676 0) false 1676 ⟨[], [], 0⟩) =
      some .shortRead := by
  decide

/-- C4 counterexample: a device answering `GetPubkey` with three 4-byte
frames makes every `copy` yield 2 bytes instead of the expected 127 (and
2), yet `GetPubkey` succeeds and returns a buffer: the copied-byte counts
are not checked there, contradicting the claim that any discrepancy is a
fatal protocol error for every inbound reassembly. -/
theorem C4_getPubkey_short_frame_counterexample :
    min 127 ((([9, 9, 5, 5] : Frame).drop 2).length) ≠ 127 ∧
    resIsOk (GetPubkey ⟨[[9, 9, 5, 5], [9, 9, 5, 5], [9, 9, 5, 5]], [], 0⟩) = true := by
  decide

theorem Sign_no_overshoot (data : List Nat) (st : TKState) :
    (Sign data st).1 ≠ .error .overshoot := by
  simp only [Sign]
  split
  · rename_i e st1 heq
    have hv := setSize_err_val data.length st e st1 heq
    rcases hv with h | h <;> subst h <;> simp
  · rename_i u st1 heq
    split
    · rename_i e st2 heq2
      have hv := chunkLoop_err_val cmdSignData (by decide) (data.length - 0) data 0 st1
        e st2 rfl heq2
      rcases hv with h | h <;> subst h <;> simp
    · rename_i o st2 heq2
      have ho : o = data.length :=
        chunkLoop_ok_val cmdSignData (by decide) (data.length - 0) data 0 st1 o st2
          rfl (by omega) heq2
      rw [if_neg (by omega)]
      split
      · rename_i e st3 heq3
        have hv := getSig_err_val st2 e st3 heq3
        subst hv
        simp
      · rename_i sg st3 heq3
        simp

theorem transferKey_no_overshoot (data : List Nat) (st : TKState) :
    (transferKey data st).1 ≠ .error .overshoot := by
  simp only [transferKey]
  split
  · rename_i e st1 heq
    have hv := setSize_err_val data.length st e st1 heq
    rcases hv with h | h <;> subst h <;> simp
  · rename_i u st1 heq
    split
    · rename_i e st2 heq2
      have hv := chunkLoop_err_val cmdLoadKey (by decide) (data.length - 0) data 0 st1
        e st2 rfl heq2
      rcases hv with h | h <;> subst h <;> simp
    · rename_i o st2 heq2
      have ho : o = data.length :=
        chunkLoop_ok_val cmdLoadKey (by decide) (data.length - 0) data 0 st1 o st2
          rfl (by omega) heq2
      rw [if_neg (by omega)]
      simp

theorem loadEncKey_no_overshoot (data : List Nat) (st : TKState) :
    (loadEncKey data st).1 ≠ .error .overshoot := by
  simp only [loadEncKey]
  split
  · rename_i e st1 heq
    have hv := setSize_err_val data.length st e st1 heq
    rcases hv with h | h <;> subst h <;> simp
  · rename_i u st1 heq
    split
    · rename_i e st2 heq2
      have hv := chunkLoop_err_val cmdLoadEncKey (by decide) (data.length - 0) data 0 st1
        e st2 rfl heq2
      rcases hv with h | h <;> subst h <;> simp
    · rename_i o st2 heq2
      have ho : o = data.length :=
        chunkLoop_ok_val cmdLoadEncKey (by decide) (data.length - 0) data 0 st1 o st2
          rfl (by omega) heq2
      rw [if_neg (by omega)]
      simp

/-- C2: for every message of length at most `MaxSignSize` and every device
that acknowledges each chunk with a success status (and has enough
responses), the sign-chunking loop succeeds with final cursor exactly
`len(data)` (so the total counted as sent is the message length), sends
exactly `⌈len/127⌉` chunk frames, consumes exactly one response per chunk,
and the i-th chunk frame is `pieceTx` of bytes `[127·i, 127·i+127)` of the
message, zero-padded to the fixed 127-byte payload. -/
theorem C2_sign_chunk_roundtrip (data : List Nat) (st : TKState)
    (hL : data.length ≤ MaxSignSize)
    (hok : ∀ f ∈ st.pending.take ((data.length + 126) / 127), f.getD 2 0 = statusOK)
    (hn : (data.length + 126) / 127 ≤ st.pending.length) :
    chunkLoop cmdSignData (by decide) data 0 st =
      (.ok data.length,
       ⟨st.pending.drop ((data.length + 126) / 127),
        st.sent ++ chunkTxs cmdSignData data, st.timeout⟩) ∧
    (chunkTxs cmdSignData data).length = (data.length + 126) / 127 ∧
    (∀ i, i < (data.length + 126) / 127 →
      (chunkTxs cmdSignData data).getD i [] =
        pieceTx cmdSignData ((data.drop (127 * i)).take 127)) := by
  refine ⟨?_, chunkTxs_length cmdSignData data.length data rfl, ?_⟩
  · have h := chunkLoop_ok_run cmdSignData (by decide) (by decide) data.length data 0 st
      (by omega) (by omega) hok hn
    rw [List.drop_zero] at h
    exact h
  · intro i hi
    exact chunkTxs_getD cmdSignData (by decide) i data
      (by rw [chunkTxs_length cmdSignData data.length data rfl]; exact hi)

/-- C2 witness: a 300-byte message against a device acknowledging all
three chunks. -/
theorem C2_sign_chunk_roundtrip_witness :
    chunkLoop cmdSignData (by decide) (List.replicate 300 0xAA) 0
        ⟨List.replicate 3 okFrame, [], 0⟩ =
      (.ok 300, ⟨[], chunkTxs cmdSignData (List.replicate 300 0xAA), 0⟩) := by
  have h := (C2_sign_chunk_roundtrip (List.replicate 300 0xAA)
    ⟨List.replicate 3 okFrame, [], 0⟩ (by decide) (by decide) (by decide)).1
  rw [List.length_replicate] at h
  exact h

/-- C10: outbound chunking never overshoots: a successful chunk loop from
any cursor position at most the total length ends with the cursor exactly
at the total length, and consequently none of `Sign`, `transferKey` and
`loadEncKey` can ever return the "transmitted more than expected"
(overshoot) error, for any input and any device behaviour. -/
theorem C10_no_overshoot (cmd : AppCmd) (hc : 0 < cmd.cmdLen.byteLen - 1)
    (data : List Nat) (offset : Nat) (st : TKState) (hoff : offset ≤ data.length) :
    (∀ o st2, chunkLoop cmd hc data offset st = (.ok o, st2) → o = data.length) ∧
    (Sign data st).1 ≠ .error .overshoot ∧
    (transferKey data st).1 ≠ .error .overshoot ∧
    (loadEncKey data st).1 ≠ .error .overshoot :=
  ⟨fun o st2 h =>
    chunkLoop_ok_val cmd hc (data.length - offset) data offset st o st2 rfl hoff h,
   Sign_no_overshoot data st, transferKey_no_overshoot data st,
   loadEncKey_no_overshoot data st⟩

/-- C10 witness. -/
theorem C10_no_overshoot_witness :
    (Sign [1, 2, 3] ⟨[], [], 0⟩).1 ≠ .error .overshoot :=
  (C10_no_overshoot cmdSignData (by decide) [1, 2, 3] 0 ⟨[], [], 0⟩ (by decide)).2.1

/-- C6: any response frame whose status byte is not success makes the
enclosing outbound operation fail immediately: the set-size exchange and
every chunk exchange (the shared body of `signLoad`, `transferPiece`,
`keyEncLoad`) consume exactly the offending frame and return the
corresponding NOK error, and at the `Sign` level a bad status on chunk
j+1 aborts the whole call with the chunk error, leaving every response
frame after the offending one unread on the device. -/
theorem C6_status_gate :
    (∀ (size : Nat) (st : TKState) (f : Frame) (rest : List Frame),
      st.pending = f :: rest → f.getD 2 0 ≠ statusOK →
      setSize size st =
        (.error .setSizeNOK, ⟨rest, st.sent ++ [setSizeTx size], st.timeout⟩)) ∧
    (∀ (cmd : AppCmd) (content : List Nat) (st : TKState) (f : Frame) (rest : List Frame),
      st.pending = f :: rest → f.getD 2 0 ≠ statusOK →
      pieceLoad cmd content st =
        (.error .signDataNOK, ⟨rest, st.sent ++ [pieceTx cmd content], st.timeout⟩)) ∧
    (∀ (data : List Nat) (st : TKState) (s0 f : Frame) (good rest : List Frame),
      st.pending = s0 :: (good ++ f :: rest) →
      s0.getD 2 0 = statusOK →
      (∀ g ∈ good, g.getD 2 0 = statusOK) →
      f.getD 2 0 ≠ statusOK →
      good.length * 127 < data.length →
      Sign data st =
        (.error .signDataNOK,
         ⟨rest, st.sent ++ setSizeTx data.length ::
            (chunkTxs cmdSignData data).take (good.length + 1), st.timeout⟩)) := by
  refine ⟨setSize_nok, pieceLoad_nok, ?_⟩
  intro data st s0 f good rest hp hs0 hgood hf hlen
  simp only [Sign]
  split
  · rename_i e st1 heq
    rw [setSize_ok data.length st s0 (good ++ f :: rest) hp hs0] at heq
    rw [Prod.mk.injEq] at heq
    exact Except.noConfusion heq.1
  · rename_i u st1 heq
    rw [setSize_ok data.length st s0 (good ++ f :: rest) hp hs0] at heq
    rw [Prod.mk.injEq] at heq
    have hst1 : st1 =
        ⟨good ++ f :: rest, st.sent ++ [setSizeTx data.length], st.timeout⟩ := heq.2.symm
    subst hst1
    split
    · rename_i e st2 heq2
      rw [chunkLoop_nok_run cmdSignData (by decide) (by decide) good data 0 _ f rest rfl
        hgood hf (by omega)] at heq2
      rw [Prod.mk.injEq] at heq2
      obtain ⟨h1, h2⟩ := heq2
      subst h2
      rw [← Except.error.inj h1]
      rw [Prod.mk.injEq, TKState.mk.injEq]
      refine ⟨rfl, rfl, ?_, rfl⟩
      rw [List.drop_zero]
      simp
    · rename_i o st2 heq2
      rw [chunkLoop_nok_run cmdSignData (by decide) (by decide) good data 0 _ f rest rfl
        hgood hf (by omega)] at heq2
      rw [Prod.mk.injEq] at heq2
      exact Except.noConfusion heq2.1

/-- C6 witness: a bad set-size status, a bad chunk status, and a `Sign`
call whose second chunk is rejected with one unread frame left pending. -/
theorem C6_status_gate_witness :
    setSize 5 ⟨[nokFrame], [], 0⟩ =
      (.error .setSizeNOK, ⟨[], [setSizeTx 5], 0⟩) ∧
    pieceLoad cmdSignData [1, 2] ⟨[nokFrame], [], 0⟩ =
      (.error .signDataNOK, ⟨[], [pieceTx cmdSignData [1, 2]], 0⟩) ∧
    Sign (List.replicate 200 1) ⟨okFrame :: ([okFrame] ++ nokFrame :: [[7, 7, 7, 7]]), [], 0⟩ =
      (.error .signDataNOK,
       ⟨[[7, 7, 7, 7]], setSizeTx (List.replicate 200 (1 : Nat)).length ::
          (chunkTxs cmdSignData (List.replicate 200 1)).take ([okFrame].length + 1), 0⟩) :=
  ⟨C6_status_gate.1 5 ⟨[nokFrame], [], 0⟩ nokFrame [] rfl (by decide),
   C6_status_gate.2.1 cmdSignData [1, 2] ⟨[nokFrame], [], 0⟩ nokFrame [] rfl (by decide),
   C6_status_gate.2.2 (List.replicate 200 1) _ okFrame nokFrame [okFrame] [[7, 7, 7, 7]]
     rfl (by decide) (by decide) (by decide) (by decide)⟩

theorem readFrame_empty (st : TKState) (hp : st.pending = []) :
    readFrame st = (.error .readFrameErr, st) := by
  simp [readFrame, hp]

theorem keyEncryptLoop_empty (i count : Nat) (rsp : List Nat) (st : TKState)
    (hc : count ≠ 0) (hp : st.pending = []) :
    keyEncryptLoop i count rsp st = (.error .readFrameErr, st) := by
  rcases count with _ | c
  · exact absurd rfl hc
  · simp only [keyEncryptLoop]
    split
    · rename_i e st1 heq
      rw [readFrame_empty st hp] at heq
      rw [Prod.mk.injEq] at heq
      rw [← heq.2, ← Except.error.inj heq.1]
    · rename_i rx st1 heq
      rw [readFrame_empty st hp] at heq
      rw [Prod.mk.injEq] at heq
      exact Except.noConfusion heq.1

theorem keyEncrypt_empty (st : TKState) (hp : st.pending = []) :
    keyEncrypt st =
      (.error .readFrameErr,
       ⟨st.pending, st.sent ++ [newFrameBuf cmdEncryptKey 2], st.timeout⟩) := by
  simp only [keyEncrypt]
  split
  · rename_i e st1 heq
    rw [keyEncryptLoop_empty 0 13 (List.replicate 1676 0)
      (write (newFrameBuf cmdEncryptKey 2) st) (by decide) (by simp [write, hp])] at heq
    rw [Prod.mk.injEq] at heq
    obtain ⟨h1, h2⟩ := heq
    subst h2
    rw [← Except.error.inj h1]
    rw [Prod.mk.injEq]
    exact ⟨rfl, by simp [write]⟩
  · rename_i rsp st1 heq
    rw [keyEncryptLoop_empty 0 13 (List.replicate 1676 0)
      (write (newFrameBuf cmdEncryptKey 2) st) (by decide) (by simp [write, hp])] at heq
    rw [Prod.mk.injEq] at heq
    exact Except.noConfusion heq.1

theorem encryptKey_run (data : List Nat) (st : TKState) (f : Frame) (rest : List Frame)
    (hp : st.pending = f :: rest) (hf : f.getD 2 0 = statusOK)
    (hok : ∀ g ∈ rest.take ((data.length + 126) / 127), g.getD 2 0 = statusOK)
    (hcount : (data.length + 126) / 127 ≤ rest.length)
    (fs rest2 : List Frame)
    (hsplit : rest.drop ((data.length + 126) / 127) = fs ++ rest2)
    (hfs : fs.length = 14) (hfl : ∀ g ∈ fs, g.length = 129) :
    encryptKey data st =
      (.ok (encBlob fs),
       ⟨rest2, (st.sent ++ setSizeTx data.length :: chunkTxs cmdLoadKey data) ++
          [newFrameBuf cmdEncryptKey 2], st.timeout⟩) := by
  simp only [encryptKey]
  split
  · rename_i e st1 heq
    rw [transferKey_run data st f rest hp hf hok hcount] at heq
    rw [Prod.mk.injEq] at heq
    exact Except.noConfusion heq.1
  · rename_i u st1 heq
    rw [transferKey_run data st f rest hp hf hok hcount] at heq
    rw [Prod.mk.injEq] at heq
    have hst1 : st1 =
        ⟨rest.drop ((data.length + 126) / 127),
         st.sent ++ setSizeTx data.length :: chunkTxs cmdLoadKey data, st.timeout⟩ :=
      heq.2.symm
    subst hst1
    exact keyEncrypt_run _ fs rest2 hsplit hfs hfl

theorem encryptKey_fail_empty (data : List Nat) (st : TKState) (f : Frame)
    (rest : List Frame)
    (hp : st.pending = f :: rest) (hf : f.getD 2 0 = statusOK)
    (hok : ∀ g ∈ rest.take ((data.length + 126) / 127), g.getD 2 0 = statusOK)
    (hcount : (data.length + 126) / 127 ≤ rest.length)
    (hempty : rest.drop ((data.length + 126) / 127) = []) :
    encryptKey data st =
      (.error .readFrameErr,
       ⟨[], (st.sent ++ setSizeTx data.length :: chunkTxs cmdLoadKey data) ++
          [newFrameBuf cmdEncryptKey 2], st.timeout⟩) := by
  simp only [encryptKey]
  split
  · rename_i e st1 heq
    rw [transferKey_run data st f rest hp hf hok hcount] at heq
    rw [Prod.mk.injEq] at heq
    exact Except.noConfusion heq.1
  · rename_i u st1 heq
    rw [transferKey_run data st f rest hp hf hok hcount] at heq
    rw [Prod.mk.injEq] at heq
    have hst1 : st1 =
        ⟨rest.drop ((data.length + 126) / 127),
         st.sent ++ setSizeTx data.length :: chunkTxs cmdLoadKey data, st.timeout⟩ :=
      heq.2.symm
    subst hst1
    have h := keyEncrypt_empty
      ⟨rest.drop ((data.length + 126) / 127),
       st.sent ++ setSizeTx data.length :: chunkTxs cmdLoadKey data, st.timeout⟩ hempty
    rw [h, hempty]

/-- C3: `LoadKey` executes exactly one of two fixed step sequences chosen
once by the PEM check.  For any 1676-byte key: on the PEM branch the trace
is set-size, the 14 key-transfer chunks, encrypt-key, then (after the
external persist) parse-key, in that order; a failure at encrypt-key
aborts the workflow with no parse-key frame ever sent.  On the non-PEM
branch the trace is set-size, the 14 encrypted-key chunks, decrypt-key,
then parse-key; a decrypt failure aborts before parse-key. -/
theorem C3_loadKey_sequencing (key : List Nat) (hkey : key.length = 1676) :
    (LoadKey 1676 key true 1676 ⟨List.replicate 30 okFrame, [], 0⟩ =
      (.ok (), ⟨[], setSizeTx 1676 :: chunkTxs cmdLoadKey key ++
        [newFrameBuf cmdEncryptKey 2, newFrameBuf cmdParseKey 2], 0⟩)) ∧
    (LoadKey 1676 key true 1676 ⟨List.replicate 15 okFrame, [], 0⟩ =
      (.error .readFrameErr, ⟨[], setSizeTx 1676 :: chunkTxs cmdLoadKey key ++
        [newFrameBuf cmdEncryptKey 2], 0⟩)) ∧
    (LoadKey 1676 key false 1676 ⟨List.replicate 17 okFrame, [], 0⟩ =
      (.ok (), ⟨[], setSizeTx 1676 :: chunkTxs cmdLoadEncKey key ++
        [newFrameBuf cmdDecryptKey 2, newFrameBuf cmdParseKey 2], 0⟩)) ∧
    (LoadKey 1676 key false 1676 ⟨List.replicate 15 okFrame ++ [nokFrame], [], 0⟩ =
      (.error .decryptKeyNOK, ⟨[], setSizeTx 1676 :: chunkTxs cmdLoadEncKey key ++
        [newFrameBuf cmdDecryptKey 2], 0⟩)) := by
  have hk14 : (key.length + 126) / 127 = 14 := by rw [hkey]
  refine ⟨?_, ?_, ?_, ?_⟩
  · -- PEM branch, full success
    simp only [LoadKey]
    rw [if_neg (by omega), if_pos trivial]
    split
    · rename_i e st1 heq
      rw [encryptKey_run key ⟨List.replicate 30 okFrame, [], 0⟩ okFrame
        (List.replicate 29 okFrame) (by decide) (by decide) (by rw [hk14]; decide)
        (by rw [hk14]; decide) (List.replicate 14 okFrame) [okFrame]
        (by rw [hk14]; decide) (by decide) (by decide)] at heq
      rw [Prod.mk.injEq] at heq
      exact Except.noConfusion heq.1
    · rename_i blob st1 heq
      rw [encryptKey_run key ⟨List.replicate 30 okFrame, [], 0⟩ okFrame
        (List.replicate 29 okFrame) (by decide) (by decide) (by rw [hk14]; decide)
        (by rw [hk14]; decide) (List.replicate 14 okFrame) [okFrame]
        (by rw [hk14]; decide) (by decide) (by decide)] at heq
      rw [Prod.mk.injEq] at heq
      have hst1 : st1 =
          ⟨[okFrame], (setSizeTx key.length :: chunkTxs cmdLoadKey key) ++
            [newFrameBuf cmdEncryptKey 2], 0⟩ := heq.2.symm
      subst hst1
      rw [if_neg (by omega)]
      rw [parseKey_ok _ okFrame [] rfl (by decide)]
      rw [hkey]
      rw [Prod.mk.injEq, TKState.mk.injEq]
      refine ⟨rfl, rfl, ?_, rfl⟩
      simp
  · -- PEM branch, encrypt-key fails: no parse-key frame sent
    simp only [LoadKey]
    rw [if_neg (by omega), if_pos trivial]
    split
    · rename_i e st1 heq
      rw [encryptKey_fail_empty key ⟨List.replicate 15 okFrame, [], 0⟩ okFrame
        (List.replicate 14 okFrame) (by decide) (by decide) (by rw [hk14]; decide)
        (by rw [hk14]; decide) (by rw [hk14]; decide)] at heq
      rw [Prod.mk.injEq] at heq
      obtain ⟨h1, h2⟩ := heq
      subst h2
      rw [← Except.error.inj h1]
      rw [hkey]
      rw [Prod.mk.injEq, TKState.mk.injEq]
      refine ⟨rfl, rfl, ?_, rfl⟩
      simp
    · rename_i blob st1 heq
      rw [encryptKey_fail_empty key ⟨List.replicate 15 okFrame, [], 0⟩ okFrame
        (List.replicate 14 okFrame) (by decide) (by decide) (by rw [hk14]; decide)
        (by rw [hk14]; decide) (by rw [hk14]; decide)] at heq
      rw [Prod.mk.injEq] at heq
      exact Except.noConfusion heq.1
  · -- non-PEM branch, full success
    simp only [LoadKey]
    rw [if_neg (by omega), if_neg (by decide)]
    split
    · rename_i e st1 heq
      rw [loadEncKey_run key ⟨List.replicate 17 okFrame, [], 0⟩ okFrame
        (List.replicate 16 okFrame) (by decide) (by decide) (by rw [hk14]; decide)
        (by rw [hk14]; decide)] at heq
      rw [Prod.mk.injEq] at heq
      exact Except.noConfusion heq.1
    · rename_i u st1 heq
      rw [loadEncKey_run key ⟨List.replicate 17 okFrame, [], 0⟩ okFrame
        (List.replicate 16 okFrame) (by decide) (by decide) (by rw [hk14]; decide)
        (by rw [hk14]; decide)] at heq
      rw [Prod.mk.injEq] at heq
      have hst1 : st1 =
          ⟨(List.replicate 16 okFrame).drop ((key.length + 126) / 127),
           setSizeTx key.length :: chunkTxs cmdLoadEncKey key, 0⟩ := heq.2.symm
      subst hst1
      rw [hk14]
      split
      · rename_i e st2 heq2
        rw [decryptKey_ok
          ⟨(List.replicate 16 okFrame).drop 14,
           setSizeTx key.length :: chunkTxs cmdLoadEncKey key, 0⟩
          okFrame [okFrame] rfl (by decide)] at heq2
        rw [Prod.mk.injEq] at heq2
        exact Except.noConfusion heq2.1
      · rename_i u2 st2 heq2
        rw [decryptKey_ok
          ⟨(List.replicate 16 okFrame).drop 14,
           setSizeTx key.length :: chunkTxs cmdLoadEncKey key, 0⟩
          okFrame [okFrame] rfl (by decide)] at heq2
        rw [Prod.mk.injEq] at heq2
        have hst2 : st2 =
            ⟨[okFrame], (setSizeTx key.length :: chunkTxs cmdLoadEncKey key) ++
              [newFrameBuf cmdDecryptKey 2], 0⟩ := heq2.2.symm
        subst hst2
        rw [parseKey_ok _ okFrame [] rfl (by decide)]
        rw [hkey]
        rw [Prod.mk.injEq, TKState.mk.injEq]
        refine ⟨rfl, rfl, ?_, rfl⟩
        simp
  · -- non-PEM branch, decrypt-key fails: no parse-key frame sent
    simp only [LoadKey]
    rw [if_neg (by omega), if_neg (by decide)]
    split
    · rename_i e st1 heq
      rw [loadEncKey_run key ⟨List.replicate 15 okFrame ++ [nokFrame], [], 0⟩ okFrame
        (List.replicate 14 okFrame ++ [nokFrame]) (by decide) (by decide)
        (by rw [hk14]; decide) (by rw [hk14]; decide)] at heq
      rw [Prod.mk.injEq] at heq
      exact Except.noConfusion heq.1
    · rename_i u st1 heq
      rw [loadEncKey_run key ⟨List.replicate 15 okFrame ++ [nokFrame], [], 0⟩ okFrame
        (List.replicate 14 okFrame ++ [nokFrame]) (by decide) (by decide)
        (by rw [hk14]; decide) (by rw [hk14]; decide)] at heq
      rw [Prod.mk.injEq] at heq
      have hst1 : st1 =
          ⟨(List.replicate 14 okFrame ++ [nokFrame]).drop ((key.length + 126) / 127),
           setSizeTx key.length :: chunkTxs cmdLoadEncKey key, 0⟩ := heq.2.symm
      subst hst1
      rw [hk14]
      split
      · rename_i e st2 heq2
        rw [decryptKey_nok
          ⟨(List.replicate 14 okFrame ++ [nokFrame]).drop 14,
           setSizeTx key.length :: chunkTxs cmdLoadEncKey key, 0⟩
          nokFrame [] rfl (by decide)] at heq2
        rw [Prod.mk.injEq] at heq2
        obtain ⟨h1, h2⟩ := heq2
        subst h2
        rw [← Except.error.inj h1]
        rw [hkey]
      · rename_i u2 st2 heq2
        rw [decryptKey_nok
          ⟨(List.replicate 14 okFrame ++ [nokFrame]).drop 14,
           setSizeTx key.length :: chunkTxs cmdLoadEncKey key, 0⟩
          nokFrame [] rfl (by decide)] at heq2
        rw [Prod.mk.injEq] at heq2
        exact Except.noConfusion heq2.1

/-- C3 witness: the PEM-branch success scenario at a concrete key. -/
theorem C3_loadKey_sequencing_witness :
    (List.replicate 1676 (3 : Nat)).length = 1676 ∧
    LoadKey 1676 (List.replicate 1676 3) true 1676 ⟨List.replicate 30 okFrame, [], 0⟩ =
      (.ok (), ⟨[], setSizeTx 1676 :: chunkTxs cmdLoadKey (List.replicate 1676 3) ++
        [newFrameBuf cmdEncryptKey 2, newFrameBuf cmdParseKey 2], 0⟩) :=
  ⟨List.length_replicate ..,
   (C3_loadKey_sequencing (List.replicate 1676 3) (List.length_replicate ..)).1⟩

/-- Generalisation of `keyEncrypt_run` to a tail frame of any length of at
least 27 bytes, the least length on which the source's `rx[2:2+25]` slice
expression is defined: the tail copy then yields exactly 25 bytes, the
`copied != 25` check never fires, and `keyEncrypt` succeeds. -/
theorem keyEncrypt_run_gen (st : TKState) (fs rest : List Frame) (ft : Frame)
    (hp : st.pending = fs ++ ft :: rest) (hlen : fs.length = 13)
    (hf : ∀ f ∈ fs, f.length = 129) (hft : 27 ≤ ft.length) :
    keyEncrypt st =
      (.ok (encBlob (fs ++ [ft])),
       ⟨rest, st.sent ++ [newFrameBuf cmdEncryptKey 2], st.timeout⟩) := by
  have hwp : (write (newFrameBuf cmdEncryptKey 2) st).pending = fs ++ ft :: rest := by
    simp [write, hp]
  have hfl : ((fs.map fun f => (f.drop 2).take 127).flatten).length = 1651 := by
    rw [flatten_chunks_length fs hf, hlen]
  simp only [keyEncrypt]
  split
  · rename_i e st1 heq
    rw [keyEncryptLoop_run 13 0 (List.replicate 1676 0) _ fs (ft :: rest) hwp hlen hf
      (by simp only [List.length_replicate]; omega)] at heq
    rw [Prod.mk.injEq] at heq
    exact Except.noConfusion heq.1
  · rename_i rsp st1 heq
    rw [keyEncryptLoop_run 13 0 (List.replicate 1676 0) _ fs (ft :: rest) hwp hlen hf
      (by simp only [List.length_replicate]; omega)] at heq
    rw [Prod.mk.injEq] at heq
    have hrsp := (Except.ok.inj heq.1).symm
    have hst1 : st1 =
        ⟨ft :: rest, (write (newFrameBuf cmdEncryptKey 2) st).sent,
         (write (newFrameBuf cmdEncryptKey 2) st).timeout⟩ := heq.2.symm
    subst hst1
    subst hrsp
    split
    · rename_i e st2 heq2
      rw [readFrame_cons _ ft rest rfl] at heq2
      rw [Prod.mk.injEq] at heq2
      exact Except.noConfusion heq2.1
    · rename_i rx st2 heq2
      rw [readFrame_cons _ ft rest rfl] at heq2
      rw [Prod.mk.injEq] at heq2
      have hrx : ft = rx := Except.ok.inj heq2.1
      have hst2 : st2 =
          ⟨rest, (write (newFrameBuf cmdEncryptKey 2) st).sent,
           (write (newFrameBuf cmdEncryptKey 2) st).timeout⟩ := heq2.2.symm
      subst hst2
      subst hrx
      have hsimp : List.take (0 * 127) (List.replicate 1676 (0 : Nat)) ++
          (((fs.map fun f => (f.drop 2).take 127).flatten) ++
            List.drop ((0 + 13) * 127) (List.replicate 1676 (0 : Nat))) =
          ((fs.map fun f => (f.drop 2).take 127).flatten) ++ List.replicate 25 0 := by
        rw [show (0 : Nat) * 127 = 0 from rfl, List.take_zero, List.nil_append,
          show (0 + 13) * 127 = 1651 from rfl, List.drop_replicate]
      rw [hsimp]
      have hsrc : ((ft.drop 2).take 25).length = 25 := by
        rw [List.length_take, List.length_drop]
        omega
      have hsc := sliceCopy_fill ((fs.map fun f => (f.drop 2).take 127).flatten)
        (List.replicate 25 0) ((ft.drop 2).take 25) 1651 25 hfl hsrc
      rw [hsc]
      rw [if_neg (by simp)]
      rw [Prod.mk.injEq]
      constructor
      · have hgd : (fs ++ [ft]).getD 13 [] = ft := by
          have h13 : 13 < (fs ++ [ft]).length := by
            simp only [List.length_append, List.length_cons, List.length_nil, hlen]
            omega
          rw [List.getD_eq_getElem?_getD, List.getElem?_eq_getElem h13, Option.getD_some]
          rw [List.getElem_append_right (by omega)]
          simp [hlen]
        rw [encBlob, List.take_left' hlen, hgd]
        simp
      · rw [TKState.mk.injEq]
        exact ⟨rfl, by simp [write], by simp [write]⟩

/-- C4 (amended): only the thirteen full-frame steps of the encrypted-key
reassembly enforce a live copied-byte check: each step of `keyEncryptLoop`
fails with a protocol error when a response frame long enough for the
source's `rx[2:]` slice (at least 2 bytes) yields fewer than 127 copied
bytes. The tail check `copied != 25` is dead code: on every tail frame
long enough for the source's `rx[2:2+25]` slice (at least 27 bytes)
exactly 25 bytes are copied and `keyEncrypt` succeeds. `GetPubkey` and
`getSig` perform no copied-byte checks and return a 256-byte buffer for
any response frames long enough for their slice expressions (at least 2,
2 and 4 bytes respectively). -/
theorem C4_reassembly_copy_check :
    (∀ (i c : Nat) (rsp : List Nat) (st : TKState) (f : Frame) (rest : List Frame),
      st.pending = f :: rest → 2 ≤ f.length → min 127 (f.drop 2).length ≠ 127 →
      keyEncryptLoop i (c + 1) rsp st =
        (.error .copiedMismatch, ⟨rest, st.sent, st.timeout⟩)) ∧
    (∀ (st : TKState) (fs rest : List Frame) (ft : Frame),
      st.pending = fs ++ ft :: rest → fs.length = 13 →
      (∀ f ∈ fs, f.length = 129) → 27 ≤ ft.length →
      keyEncrypt st =
        (.ok (encBlob (fs ++ [ft])),
         ⟨rest, st.sent ++ [newFrameBuf cmdEncryptKey 2], st.timeout⟩)) ∧
    (∀ (st : TKState) (f1 f2 f3 : Frame) (rest : List Frame),
      st.pending = f1 :: f2 :: f3 :: rest →
      2 ≤ f1.length → 2 ≤ f2.length → 4 ≤ f3.length →
      (∃ b st2, GetPubkey st = (.ok b, st2)) ∧ (∃ b st2, getSig st = (.ok b, st2))) := by
  refine ⟨?_, ?_, ?_⟩
  · intro i c rsp st f rest hp hflen hshort
    simp only [keyEncryptLoop]
    split
    · rename_i e st1 heq
      rw [readFrame_cons st f rest hp] at heq
      rw [Prod.mk.injEq] at heq
      exact Except.noConfusion heq.1
    · rename_i rx st1 heq
      rw [readFrame_cons st f rest hp] at heq
      rw [Prod.mk.injEq] at heq
      have hrx : f = rx := Except.ok.inj heq.1
      have hst1 : st1 = ⟨rest, st.sent, st.timeout⟩ := heq.2.symm
      subst hst1
      subst hrx
      have hn : (sliceCopy rsp (i * 127) 127 (f.drop 2)).2 = min 127 (f.drop 2).length := rfl
      rw [if_pos (by rw [hn]; exact hshort)]
  · intro st fs rest ft hp hlen hfl hft
    exact keyEncrypt_run_gen st fs rest ft hp hlen hfl hft
  · intro st f1 f2 f3 rest hp h1 h2 h3
    exact ⟨GetPubkey_ok_any st f1 f2 f3 rest hp, getSig_ok_any st f1 f2 f3 rest hp⟩

/-- C4 witness: a 4-byte full frame aborts the loop; thirteen full frames
and a 129-byte tail make `keyEncrypt` succeed despite the tail check;
three well-formed frames make `GetPubkey` succeed. -/
theorem C4_reassembly_copy_check_witness :
    keyEncryptLoop 0 1 [] ⟨[[1, 2, 3, 4]], [], 0⟩ =
      (.error .copiedMismatch, ⟨[], [], 0⟩) ∧
    keyEncrypt ⟨List.replicate 13 okFrame ++ [okFrame], [], 0⟩ =
      (.ok (encBlob (List.replicate 13 okFrame ++ [okFrame])),
       ⟨[], [newFrameBuf cmdEncryptKey 2], 0⟩) ∧
    (∃ b st2, GetPubkey ⟨[okFrame, okFrame, okFrame], [], 0⟩ = (.ok b, st2)) :=
  ⟨C4_reassembly_copy_check.1 0 0 [] ⟨[[1, 2, 3, 4]], [], 0⟩ [1, 2, 3, 4] [] rfl
     (by decide) (by decide),
   C4_reassembly_copy_check.2.1 ⟨List.replicate 13 okFrame ++ [okFrame], [], 0⟩
     (List.replicate 13 okFrame) [] okFrame rfl (by decide) (by decide) (by decide),
   (C4_reassembly_copy_check.2.2 ⟨[okFrame, okFrame, okFrame], [], 0⟩
     okFrame okFrame okFrame [] rfl (by decide) (by decide) (by decide)).1⟩

/-- C5: on success each inbound reassembly yields exactly the declared
total at the declared per-frame offsets: `GetPubkey` and `getSig` return
the 256-byte concatenation of 127 + 127 + 2 bytes drawn from their three
response frames (offsets 0, 127 and 254), and `keyEncrypt` returns the
1676-byte `encBlob`: thirteen 127-byte slices at offsets i·127 followed by
a 25-byte tail at offset 1651. -/
theorem C5_reassembly_exact (st su : TKState) (f1 f2 f3 : Frame) (rest : List Frame)
    (fs rest2 : List Frame)
    (hp : st.pending = f1 :: f2 :: f3 :: rest)
    (h1 : f1.length = 129) (h2 : f2.length = 129) (h3 : f3.length = 129)
    (hfs : fs.length = 14) (hfl : ∀ f ∈ fs, f.length = 129)
    (hsu : su.pending = fs ++ rest2) :
    (GetPubkey st =
        (.ok (f1.drop 2 ++ (f2.drop 2 ++ (f3.drop 2).take 2)),
         ⟨rest, st.sent ++ [newFrameBuf cmdGetPubkey 2], st.timeout⟩) ∧
      (f1.drop 2 ++ (f2.drop 2 ++ (f3.drop 2).take 2)).length = 256) ∧
    getSig st =
      (.ok (f1.drop 2 ++ (f2.drop 2 ++ (f3.drop 2).take 2)),
       ⟨rest, st.sent ++ [newFrameBuf cmdGetSig 2], st.timeout⟩) ∧
    keyEncrypt su =
      (.ok (encBlob fs),
       ⟨rest2, su.sent ++ [newFrameBuf cmdEncryptKey 2], su.timeout⟩) ∧
    (encBlob fs).length = 1676 := by
  refine ⟨⟨GetPubkey_run st f1 f2 f3 rest hp h1 h2 h3, ?_⟩,
    getSig_run st f1 f2 f3 rest hp h1 h2 h3,
    keyEncrypt_run su fs rest2 hsu hfs hfl, ?_⟩
  · simp only [List.length_append, List.length_take, List.length_drop, h1, h2, h3]
    omega
  · have h13 : 13 < fs.length := by omega
    have htl : ∀ g ∈ fs.take 13, g.length = 129 :=
      fun g hg => hfl g (List.mem_of_mem_take hg)
    have hfl13 := flatten_chunks_length (fs.take 13) htl
    have hgd : fs.getD 13 [] = fs[13] := by
      rw [List.getD_eq_getElem?_getD, List.getElem?_eq_getElem h13, Option.getD_some]
    have hft : (fs.getD 13 []).length = 129 := by
      rw [hgd]
      exact hfl _ (List.getElem_mem ..)
    rw [encBlob, List.length_append, hfl13, List.length_take]
    rw [List.length_take, List.length_drop, hft, hfs]
    omega

/-- C5 witness: three well-formed frames for `GetPubkey` and fourteen for
the encrypted-key blob. -/
theorem C5_reassembly_exact_witness :
    GetPubkey ⟨[okFrame, okFrame, okFrame], [], 0⟩ =
      (.ok (okFrame.drop 2 ++ (okFrame.drop 2 ++ (okFrame.drop 2).take 2)),
       ⟨[], [newFrameBuf cmdGetPubkey 2], 0⟩) ∧
    (encBlob (List.replicate 14 okFrame)).length = 1676 :=
  ⟨((C5_reassembly_exact ⟨[okFrame, okFrame, okFrame], [], 0⟩
      ⟨List.replicate 14 okFrame, [], 0⟩ okFrame okFrame okFrame []
      (List.replicate 14 okFrame) [] rfl (by decide) (by decide) (by decide)
      (by decide) (by decide) (by simp)).1).1,
   (C5_reassembly_exact ⟨[okFrame, okFrame, okFrame], [], 0⟩
      ⟨List.replicate 14 okFrame, [], 0⟩ okFrame okFrame okFrame []
      (List.replicate 14 okFrame) [] rfl (by decide) (by decide) (by decide)
      (by decide) (by decide) (by simp)).2.2.2⟩

end Tkeysign
